import Mathlib

/-!
Verification development for the photo-mosaic service
(`photo_mosaic` package: `services/mosaic_filling.py`,
`services/mosaic_management.py`, `services/persistence.py`,
`utils/image_processing.py`, `utils/animation.py`,
`api/routers/public_router.py`).

The embedding is shallow: mosaic/segment records and the sqlite-backed
store become Lean structures and lists; the image primitives (PIL/numpy
codecs, resize, blur, blend, brightness) and the randomness sources
(`random.sample`, `uuid4`) are out-of-scope collaborators and are
supplied through an `Env` record of function parameters, exactly at the
granularity the Python code calls them.  Machine floats that are only
carried around opaquely (blend values, blur radii) are modelled as `Rat`.
Python exceptions become an explicit outcome value; an operation returns
the connection state it leaves behind together with that outcome.
-/

namespace PhotoMosaic

/-- Opaque binary blobs (jpeg/gif bytes, upload payloads). -/
abbrev Bytes := Nat

/-- One pixel sample (opaque RGB value). -/
abbrev Pix := Nat

/-- A 2-d pixel array (`np.ndarray`): a list of rows. -/
abbrev Buffer := List (List Pix)

/-- `utils/image_processing.py`: INVALID_BRIGHTNESS = -1. -/
def INVALID_BRIGHTNESS : Int := -1

/-- `utils/image_processing.py`: LOW_BRIGHTNESS = 0. -/
def LOW_BRIGHTNESS : Int := 0

/-- `utils/image_processing.py`: MEDIUM_BRIGHTNESS = 1. -/
def MEDIUM_BRIGHTNESS : Int := 1

/-- `utils/image_processing.py`: HIGH_BRIGHTNESS = 2. -/
def HIGH_BRIGHTNESS : Int := 2

/-- `models/raw_image.py`: RAW_IMAGE_ORIGINAL_JPEG = 0. -/
def RAW_IMAGE_ORIGINAL_JPEG : Nat := 0

/-- `models/raw_image.py`: RAW_IMAGE_CURRENT_JPEG = 1. -/
def RAW_IMAGE_CURRENT_JPEG : Nat := 1

/-- `models/raw_image.py`: RAW_IMAGE_FILLING_GIF = 2. -/
def RAW_IMAGE_FILLING_GIF : Nat := 2

/-- `models/raw_image.py`: RAW_IMAGE_CURRENT_SMALL_JPEG = 4. -/
def RAW_IMAGE_CURRENT_SMALL_JPEG : Nat := 4

/-- `models/image_pixels.py`: IMAGE_PIXELS_CATEGORY_ORIGINAL = 0. -/
def IMAGE_PIXELS_CATEGORY_ORIGINAL : Nat := 0

/-- `models/image_pixels.py`: IMAGE_PIXELS_CATEGORY_CURRENT = 1. -/
def IMAGE_PIXELS_CATEGORY_CURRENT : Nat := 1

/-- `models/mosaic_config.py` (MosaicConfig).  Float style values kept as `Rat`. -/
structure MosaicConfig where
  title : Nat
  numSegments : Nat
  mosaicBgBrightness : Rat
  mosaicBlendValue : Rat
  segmentBlendValue : Rat
  segmentBlurLow : Rat
  segmentBlurMedium : Rat
  segmentBlurHigh : Rat
deriving DecidableEq, Repr

/-- `models/mosaic_metadata.py` (MosaicMetadata).  Ids are opaque `Nat`s. -/
structure MosaicMetadata where
  id : Nat
  idx : Int
  active : Bool
  filled : Bool
  original : Bool
  segmentWidth : Nat
  segmentHeight : Nat
  nRows : Nat
  nCols : Nat
  spaceTop : Nat
  spaceLeft : Nat
  mosaicConfig : MosaicConfig
deriving DecidableEq, Repr

/-- `models/segment.py` plus the `random_sort_key` column of the
`segments` table (`persistence.py::_init_db`). -/
structure Segment where
  id : Nat
  mosaicId : Nat
  rowIdx : Nat
  colIdx : Nat
  xMin : Nat
  xMax : Nat
  yMin : Nat
  yMax : Nat
  brightness : Int
  fillable : Bool
  filled : Bool
  isStartSegment : Bool
  randomSortKey : Nat
deriving DecidableEq, Repr

/-- `models/raw_image.py` (RawImage). -/
structure RawImage where
  mosaicId : Nat
  category : Nat
  imageBytes : Bytes
deriving DecidableEq, Repr

/-- `models/image_pixels.py` (ImagePixels). -/
structure ImagePixels where
  mosaicId : Nat
  category : Nat
  pixelArray : Buffer
deriving DecidableEq, Repr

/-- A Python exception escaping an operation.  `http c` is a fastapi
`HTTPException(status_code=c)`; the others are builtin exception kinds. -/
inductive PyErr where
  | http (code : Nat)
  | valueError
  | indexError
  | keyError
deriving DecidableEq, Repr

/-- Outcome of an operation: normal return with a value, an escaped
exception, or non-termination of an internal loop. -/
inductive PyResult (α : Type) where
  | ok (a : α)
  | exn (e : PyErr)
  | hang
deriving DecidableEq, Repr

/-- Environment of external collaborators: image primitives (PIL / numpy /
cv2, consumed as black boxes), the nsfw predicate, the randomness sources
and the values read from `get_config()`.  Theorems quantify over it. -/
structure Env where
  decode : Bytes → Buffer
  convertRGB : Buffer → Buffer
  thumbnailImg : Nat → Buffer → Buffer
  centerCropImg : Nat → Nat → Buffer → Buffer
  resizeImg : Nat → Nat → Buffer → Buffer
  dimBrightness : Rat → Buffer → Buffer
  blendImages : Rat → Buffer → Buffer → Buffer
  blendBlurImages : Rat → Rat → Buffer → Buffer → Buffer
  encodeJpeg : Buffer → Bytes
  encodeGif : List Buffer → Bytes
  quantizeFrame : Buffer → Buffer
  classify : Buffer → Int
  nsfwEnabled : Bool
  isNsfw : Buffer → Bool
  sortKeys : Nat → List Nat
  sampleCenter : Int → Nat → Nat → List Nat
  sampleEdge : Int → Nat → Nat → List Nat
  cfgNumSegmentsMin : Nat
  cfgNumSegmentsStart : Nat
  cfgSegRatioW : Nat
  cfgSegRatioH : Nat
  cfgThumbSize : Nat
  cfgGifSize : Nat
  cfgOrigMaxSize : Nat
  cfgSampleMaxSize : Nat
  cfgUnusedWeight : Rat

/-- Map over a list together with the element position, starting at `i`. -/
def idxMap (f : Nat → α → α) : Nat → List α → List α
  | _, [] => []
  | i, x :: xs => f i x :: idxMap f (i + 1) xs

/-- Numpy slice read `b[y0:y1, x0:x1]` (indices clip at the ends, as in
numpy). -/
def cropBuf (b : Buffer) (y0 y1 x0 x1 : Nat) : Buffer :=
  ((b.drop y0).take (y1 - y0)).map (fun row => (row.drop x0).take (x1 - x0))

/-- Numpy region assignment `b[y0:y1, x0:x1] = src` for a source of the
matching shape (positions the source lacks keep the old sample). -/
def writeRegion (b : Buffer) (y0 y1 x0 x1 : Nat) (src : Buffer) : Buffer :=
  idxMap
    (fun y row =>
      if y0 ≤ y && y < y1 then
        idxMap (fun x p => if x0 ≤ x && x < x1 then ((src.getD (y - y0) []).getD (x - x0) p) else p) 0 row
      else row)
    0 b

/-- PIL `image.size`: (width, height) of a decoded buffer. -/
def bufferSize (b : Buffer) : Nat × Nat :=
  ((b.headD []).length, b.length)

/-- Insert a segment into a list sorted by `random_sort_key` ascending. -/
def insertByKey (s : Segment) : List Segment → List Segment
  | [] => [s]
  | t :: ts => if s.randomSortKey ≤ t.randomSortKey then s :: t :: ts else t :: insertByKey s ts

/-- Sort by `random_sort_key` ascending — the effect of the
`ORDER BY random_sort_key ASC` clause of `persistence.py::get_segments`
when `random_order=True`. -/
def sortByKey : List Segment → List Segment
  | [] => []
  | s :: ss => insertByKey s (sortByKey ss)

/-- The keyword filters accepted by `persistence.py::get_segments`
(the subset actually used by callers). -/
structure SegQuery where
  qid : Option Nat := none
  qmosaicId : Option Nat := none
  qrowIdx : Option Int := none
  qcolIdx : Option Int := none
  qbrightness : Option Int := none
  qfillable : Option Bool := none
  qfilled : Option Bool := none
deriving DecidableEq, Repr

/-- Whether a stored segment row satisfies the WHERE clause built by
`get_segments`. -/
def segMatches (q : SegQuery) (s : Segment) : Bool :=
  (match q.qid with | some v => s.id == v | none => true) &&
  (match q.qmosaicId with | some v => s.mosaicId == v | none => true) &&
  (match q.qrowIdx with | some v => (s.rowIdx : Int) == v | none => true) &&
  (match q.qcolIdx with | some v => (s.colIdx : Int) == v | none => true) &&
  (match q.qbrightness with | some v => s.brightness == v | none => true) &&
  (match q.qfillable with | some v => s.fillable == v | none => true) &&
  (match q.qfilled with | some v => s.filled == v | none => true)

/-- The sqlite connection state: the four tables of
`persistence.py::_init_db`, in rowid order, plus the uuid source state. -/
structure DB where
  mosaics : List MosaicMetadata
  segments : List Segment
  pixels : List ImagePixels
  rawImages : List RawImage
  nextUuid : Nat
deriving DecidableEq, Repr

/-- `persistence.py::get_segments` (SELECT with filters, optional
`ORDER BY random_sort_key ASC`, optional LIMIT when positive). -/
def getSegments (db : DB) (q : SegQuery) (randomOrder : Bool) (limit : Int) : List Segment :=
  let base := db.segments.filter (segMatches q)
  let ordered := if randomOrder then sortByKey base else base
  if 0 < limit then ordered.take limit.toNat else ordered

/-- `persistence.py::mosaic_exists`. -/
def mosaicExists (db : DB) (m : Nat) : Bool :=
  db.mosaics.any (fun r => r.id == m)

/-- `persistence.py::mosaic_count`. -/
def mosaicCount (db : DB) : Nat :=
  db.mosaics.length

/-- `persistence.py::segment_exists` (note: looks the id up across ALL
mosaics; there is no mosaic filter). -/
def segmentExists (db : DB) (s : Nat) : Bool :=
  db.segments.any (fun r => r.id == s)

/-- `persistence.py::read_mosaic_metadata` (404 when the id is absent). -/
def readMosaicMetadata (db : DB) (m : Nat) : Except PyErr MosaicMetadata :=
  match db.mosaics.find? (fun r => r.id == m) with
  | some r => .ok r
  | none => .error (.http 404)

/-- `persistence.py::read_image_pixels` (404 when the row is absent). -/
def readImagePixels (db : DB) (m cat : Nat) : Except PyErr ImagePixels :=
  match db.pixels.find? (fun p => p.mosaicId == m && p.category == cat) with
  | some p => .ok p
  | none => .error (.http 404)

/-- `persistence.py::read_raw_image` (404 when the row is absent). -/
def readRawImage (db : DB) (m cat : Nat) : Except PyErr RawImage :=
  match db.rawImages.find? (fun p => p.mosaicId == m && p.category == cat) with
  | some p => .ok p
  | none => .error (.http 404)

/-- INSERT OR REPLACE on the primary key (mosaic_id, category) of the
`image_pixels` table, at the row-list level. -/
def pixUpsertList (l : List ImagePixels) (p : ImagePixels) : List ImagePixels :=
  if l.any (fun q => q.mosaicId == p.mosaicId && q.category == p.category) then
    l.map (fun q => if q.mosaicId == p.mosaicId && q.category == p.category then p else q)
  else
    l ++ [p]

/-- INSERT OR REPLACE on the primary key (mosaic_id, category) of the
`raw_images` table, at the row-list level. -/
def rawUpsertList (l : List RawImage) (p : RawImage) : List RawImage :=
  if l.any (fun q => q.mosaicId == p.mosaicId && q.category == p.category) then
    l.map (fun q => if q.mosaicId == p.mosaicId && q.category == p.category then p else q)
  else
    l ++ [p]

/-- INSERT OR REPLACE on the primary key id of the `segments` table, at
the row-list level. -/
def segUpsertList (l : List Segment) (s : Segment) : List Segment :=
  if l.any (fun t => t.id == s.id) then
    l.map (fun t => if t.id == s.id then s else t)
  else
    l ++ [s]

/-- `persistence.py::upsert_image_pixels`. -/
def upsertImagePixels (db : DB) (p : ImagePixels) : DB :=
  { db with pixels := pixUpsertList db.pixels p }

/-- `persistence.py::upsert_raw_image`. -/
def upsertRawImage (db : DB) (p : RawImage) : DB :=
  { db with rawImages := rawUpsertList db.rawImages p }

/-- `persistence.py::upsert_segment` (INSERT OR REPLACE on the primary
key id). -/
def upsertSegment (db : DB) (s : Segment) : DB :=
  { db with segments := segUpsertList db.segments s }

/-- `persistence.py::upsert_segments`. -/
def upsertSegments (db : DB) (l : List Segment) : DB :=
  l.foldl upsertSegment db

/-- `persistence.py::get_segment_stats`: per-tier count of not-yet-filled
segments of the mosaic. -/
def segmentStats (db : DB) (m : Nat) (tier : Int) : Nat :=
  (db.segments.filter (fun s => s.mosaicId == m && !s.filled && s.brightness == tier)).length

/-- `persistence.py::insert_mosaic_metadata`: the INSERT omits `idx`, so
sqlite assigns the next rowid; the row lands at the end of the stored
order. -/
def insertMosaicMetadata (db : DB) (meta : MosaicMetadata) : DB :=
  let newIdx : Int := (db.mosaics.foldl (fun a r => max a r.idx) 0) + 1
  { db with mosaics := db.mosaics ++ [{ meta with idx := newIdx }] }

/-- `persistence.py::update_mosaic_metadata` (INSERT OR REPLACE keyed by
the unique id; an absent id is inserted at the end). -/
def updateMosaicMetadata (db : DB) (meta : MosaicMetadata) : DB :=
  if db.mosaics.any (fun r => r.id == meta.id) then
    { db with mosaics := db.mosaics.map (fun r => if r.id == meta.id then meta else r) }
  else
    { db with mosaics := db.mosaics ++ [meta] }

/-- A candidate grid configuration of
`utils/image_processing.py::get_segment_config`. -/
structure SegCfg where
  segH : Nat
  segW : Nat
  numRows : Nat
  numCols : Nat
  numSeg : Nat
  unfilledArea : Nat
  score : Int
deriving DecidableEq, Repr

/-- The candidate built in one iteration of the `get_segment_config`
search loop at scale factor `i` (for the already gcd-reduced ratio
`(rw, rh)`).  The float arithmetic of the source is exact on these
integer-valued quantities; the score
`int(abs(num_seg - target) + weight * area / (width * height))` is the
exact value truncated toward zero, computed here on the common
denominator `weight.den * (width * height)`. -/
def segConfigCandidate (w h target rw rh : Nat) (weight : Rat) (i : Nat) : SegCfg :=
  let segW := rw * i
  let segH := rh * i
  let unfW := w % segW
  let numCols := (w - unfW) / segW
  let unfH := h % segH
  let numRows := (h - unfH) / segH
  let area := unfW * unfH
  let numSeg := numCols * numRows
  let den : Int := (weight.den : Int) * ((w * h : Nat) : Int)
  let score := Int.tdiv ((((numSeg : Int) - (target : Int)).natAbs : Int) * den + weight.num * (area : Int)) den
  ⟨segH, segW, numRows, numCols, numSeg, area, score⟩

/-- The `while current_num_seg > target_num_segments / 4` search loop of
`get_segment_config`, with explicit fuel (the source loop terminates for
positive ratios; fuel exhaustion yields `none`). -/
def segConfigLoop (w h target rw rh : Nat) (weight : Rat) :
    Nat → Nat → Nat → Option SegCfg → Option SegCfg
  | 0, _, _, _ => none
  | fuel + 1, i, currentNumSeg, best =>
    if 4 * currentNumSeg > target then
      let cand := segConfigCandidate w h target rw rh weight i
      let best' := match best with
        | some b => if cand.score < b.score then some cand else some b
        | none => some cand
      segConfigLoop w h target rw rh weight fuel (i + 1) cand.numSeg best'
    else best

/-- `utils/image_processing.py::get_segment_config`.  Returns `none` when
the loop never produced a candidate (the source returns an empty dict,
which raises KeyError at the caller) or when the fuel ran out. -/
def getSegmentConfig (fuel w h target rw rh : Nat) (weight : Rat) : Option SegCfg :=
  let g := Nat.gcd rw rh
  segConfigLoop w h target (rw / g) (rh / g) weight fuel 1 (w * h) none

/-- One gif batch: overlay the ORIGINAL pixels at the segments' bounding
boxes onto the working copy (the source builds a 0/1 mask over the
batch and applies one `np.where`; region-by-region copy from the same
source is pointwise identical). -/
def overlaySegs (orig cur : Buffer) (segs : List Segment) : Buffer :=
  segs.foldl (fun acc s => writeRegion acc s.yMin s.yMax s.xMin s.xMax (cropBuf orig s.yMin s.yMax s.xMin s.xMax)) cur

/-- The `while i < len(segments) + n` frame loop shared by
`utils/animation.py::mosaic_2_gif` and
`utils/image_processing.py::mosaic_2_gif` (both files contain the same
loop), stepping `i += n` with batch `segments[i : min(i + n, len)]`.
Explicit fuel; `none` means the loop is still running after `fuel`
iterations. -/
def gifLoop (env : Env) (orig : Buffer) (segments : List Segment) (n : Nat) :
    Nat → Nat → Buffer → List Buffer → Option (List Buffer)
  | 0, _, _, _ => none
  | fuel + 1, i, cur, acc =>
    if i < segments.length + n then
      let segs := (segments.drop i).take (min (i + n) segments.length - i)
      let cur' := overlaySegs orig cur segs
      let frame := env.quantizeFrame (env.thumbnailImg env.cfgGifSize cur')
      gifLoop env orig segments n fuel (i + n) cur' (acc ++ [frame])
    else some acc

/-- `mosaic_2_gif`: current-state frames, then the filling-animation
frame loop over the not-yet-filled segments in `random_sort_key` order,
batch size `n = len(segments) // n_frames_filling`.  `.ok none` = the
frame loop does not terminate within the fuel. -/
def mosaic2gif (env : Env) (fuel : Nat) (db : DB) (m : Nat) (nFramesCur nFramesFilling : Nat) :
    Except PyErr (Option RawImage) := do
  let cur ← readImagePixels db m IMAGE_PIXELS_CATEGORY_CURRENT
  let orig ← readImagePixels db m IMAGE_PIXELS_CATEGORY_ORIGINAL
  let small := env.quantizeFrame (env.thumbnailImg env.cfgGifSize cur.pixelArray)
  let firstFrames := List.replicate nFramesCur small
  let segments := getSegments db { qmosaicId := some m, qfilled := some false } true (-1)
  let n := segments.length / nFramesFilling
  match gifLoop env orig.pixelArray segments n fuel 0 cur.pixelArray [] with
  | none => .ok none
  | some frames => .ok (some ⟨m, RAW_IMAGE_FILLING_GIF, env.encodeGif (firstFrames ++ frames)⟩)

/-- `utils/request_validation.py::generate_id` (uuid4), modelled as a
fresh-id counter threaded through the store. -/
def generateId (db : DB) : Nat × DB :=
  (db.nextUuid, { db with nextUuid := db.nextUuid + 1 })

/-- `mosaic_management.py::_create_mosaic_metadata`: first mosaic becomes
active, grid from the planner, centering margins.  KeyError when the
planner returned no configuration (empty dict subscripted). -/
def createMosaicMetadata (env : Env) (fuel : Nat) (db : DB) (imageBytes : Bytes) (cfg : MosaicConfig) :
    Except PyErr (MosaicMetadata × Buffer × DB) :=
  let isActive := mosaicCount db == 0
  let image := env.decode imageBytes
  let wh := bufferSize image
  match getSegmentConfig fuel wh.1 wh.2 cfg.numSegments env.cfgSegRatioW env.cfgSegRatioH env.cfgUnusedWeight with
  | none => .error .keyError
  | some sc =>
    let spaceTop := (wh.2 - sc.segH * sc.numRows) / 2
    let spaceLeft := (wh.1 - sc.segW * sc.numCols) / 2
    let fresh := generateId db
    .ok ({ id := fresh.1, idx := -1, active := isActive, filled := false, original := true,
           segmentWidth := sc.segW, segmentHeight := sc.segH, nRows := sc.numRows, nCols := sc.numCols,
           spaceTop := spaceTop, spaceLeft := spaceLeft, mosaicConfig := cfg }, image, fresh.2)

/-- `utils/image_processing.py::get_image_center` turned into the
center/edge test of `_create_segments` (`row_min <= r <= row_min * 3`
and likewise for columns, with `row_min = n_rows // 4`). -/
def segmentPosition (meta : MosaicMetadata) (r c : Nat) : Bool :=
  let rowMin := meta.nRows / 4
  let colMin := meta.nCols / 4
  (rowMin ≤ r && r ≤ rowMin * 3) && (colMin ≤ c && c ≤ colMin * 3)

/-- The segment record built for grid cell `(c, r)` inside
`_create_segments` (cell visit order is column-major: `k = c * n_rows + r`
is the position at which the shuffled sort key is popped and is also used
to allocate the fresh uuid). -/
def mkSegment (env : Env) (meta : MosaicMetadata) (pixels : Buffer) (keys : List Nat) (firstId c r : Nat) : Segment :=
  let k := c * meta.nRows + r
  let xMin := meta.spaceLeft + c * meta.segmentWidth
  let xMax := meta.spaceLeft + (c + 1) * meta.segmentWidth
  let yMin := meta.spaceTop + r * meta.segmentHeight
  let yMax := meta.spaceTop + (r + 1) * meta.segmentHeight
  { id := firstId + k, mosaicId := meta.id, rowIdx := r, colIdx := c,
    xMin := xMin, xMax := xMax, yMin := yMin, yMax := yMax,
    brightness := env.classify (cropBuf pixels yMin yMax xMin xMax),
    fillable := false, filled := false, isStartSegment := false,
    randomSortKey := keys.getD k 0 }

/-- All grid cells in the visit order of `_create_segments`
(`for c in range(n_cols): for r in range(n_rows)`). -/
def allCells (meta : MosaicMetadata) : List (Nat × Nat) :=
  (List.range meta.nCols).flatMap (fun c => (List.range meta.nRows).map (fun r => (c, r)))

/-- Mark the segments at the sampled bucket positions as seed segments
(`fillable = True, is_start_segment = True`). -/
def markStart (l : List Segment) (idxs : List Nat) : List Segment :=
  idxs.foldl (fun acc i => idxMap (fun j s => if j == i then { s with fillable := true, isStartSegment := true } else s) 0 acc) l

/-- The per-tier seed selection of `_create_segments`: up to
`num_segments_start` randomly sampled center segments, topped up from the
edge bucket of the same tier. -/
def pickStart (env : Env) (cList eList : List Segment) (tier : Int) : List Segment × List Segment :=
  let nCenter := cList.length
  let idxCenter := env.sampleCenter tier nCenter (min env.cfgNumSegmentsStart nCenter)
  let cList' := markStart cList idxCenter
  if idxCenter.length < env.cfgNumSegmentsStart then
    let nEdge := eList.length
    let idxEdge := env.sampleEdge tier nEdge (min (env.cfgNumSegmentsStart - idxCenter.length) nEdge)
    (cList', markStart eList idxEdge)
  else (cList', eList)

/-- `mosaic_management.py::_create_segments`.  A brightness
classification outside `{0, 1, 2}` raises (dict subscript KeyError in the
source; the creation spec treats it as fatal validation). -/
def createSegments (env : Env) (meta : MosaicMetadata) (pixels : Buffer) (firstId : Nat) :
    Except PyErr (List Segment) :=
  let keys := env.sortKeys (meta.nCols * meta.nRows)
  let raw := (allCells meta).map (fun cr => mkSegment env meta pixels keys firstId cr.1 cr.2)
  if raw.all (fun s => s.brightness == 0 || s.brightness == 1 || s.brightness == 2) then
    let bucket := fun (center : Bool) (tier : Int) =>
      raw.filter (fun s => segmentPosition meta s.rowIdx s.colIdx == center && s.brightness == tier)
    let low := pickStart env (bucket true 0) (bucket false 0) 0
    let med := pickStart env (bucket true 1) (bucket false 1) 1
    let high := pickStart env (bucket true 2) (bucket false 2) 2
    .ok (low.1 ++ low.2 ++ med.1 ++ med.2 ++ high.1 ++ high.2)
  else .error .keyError

/-- `mosaic_management.py::create_mosaic`: metadata, artifacts, pixel
buffers, segments, initial filling gif. -/
def createMosaic (env : Env) (fuel : Nat) (db : DB) (imageBytes : Bytes) (cfg : MosaicConfig) :
    DB × PyResult Nat :=
  match createMosaicMetadata env fuel db imageBytes cfg with
  | .error e => (db, .exn e)
  | .ok (meta, image, db0) =>
    let db1 := insertMosaicMetadata db0 meta
    let origSmall := env.thumbnailImg env.cfgOrigMaxSize image
    let db2 := upsertRawImage db1 ⟨meta.id, RAW_IMAGE_ORIGINAL_JPEG, env.encodeJpeg origSmall⟩
    let db3 := upsertImagePixels db2 ⟨meta.id, IMAGE_PIXELS_CATEGORY_ORIGINAL, image⟩
    let bg := env.dimBrightness cfg.mosaicBgBrightness image
    let db4 := upsertRawImage db3 ⟨meta.id, RAW_IMAGE_CURRENT_JPEG, env.encodeJpeg bg⟩
    let db5 := upsertImagePixels db4 ⟨meta.id, IMAGE_PIXELS_CATEGORY_CURRENT, bg⟩
    let db6 := upsertRawImage db5 ⟨meta.id, RAW_IMAGE_CURRENT_SMALL_JPEG, env.encodeJpeg (env.thumbnailImg env.cfgThumbSize bg)⟩
    match createSegments env meta image db6.nextUuid with
    | .error e => (db6, .exn e)
    | .ok segs =>
      let db7 := upsertSegments { db6 with nextUuid := db6.nextUuid + meta.nCols * meta.nRows } segs
      match mosaic2gif env fuel db7 meta.id 5 5 with
      | .error e => (db7, .exn e)
      | .ok none => (db7, .hang)
      | .ok (some gif) => (upsertRawImage db7 gif, .ok meta.id)

/-- `mosaic_management.py::finish_mosaic`: mark filled and inactive,
back-fill every still-fillable unfilled segment from ORIGINAL into
CURRENT, refresh the jpeg artifacts.  Segment flags are not modified. -/
def finishMosaic (env : Env) (db : DB) (meta : MosaicMetadata) : DB × PyResult Unit :=
  let db1 := updateMosaicMetadata db { meta with filled := true, active := false }
  match readImagePixels db1 meta.id IMAGE_PIXELS_CATEGORY_ORIGINAL with
  | .error e => (db1, .exn e)
  | .ok orig =>
  match readImagePixels db1 meta.id IMAGE_PIXELS_CATEGORY_CURRENT with
  | .error e => (db1, .exn e)
  | .ok cur =>
  let segs := getSegments db1 { qmosaicId := some meta.id, qfillable := some true, qfilled := some false } false (-1)
  let curF := overlaySegs orig.pixelArray cur.pixelArray segs
  let db2 := upsertImagePixels db1 ⟨meta.id, IMAGE_PIXELS_CATEGORY_CURRENT, curF⟩
  let db3 := upsertRawImage db2 ⟨meta.id, RAW_IMAGE_CURRENT_JPEG, env.encodeJpeg curF⟩
  let db4 := upsertRawImage db3 ⟨meta.id, RAW_IMAGE_CURRENT_SMALL_JPEG, env.encodeJpeg (env.thumbnailImg env.cfgThumbSize curF)⟩
  (db4, .ok ())

/-- `mosaic_management.py::get_next_mosaic_id`: first stored mosaic with
`filled = false` and `active = false` (this file unpacks the 6-column
rows correctly). -/
def getNextMosaicId (db : DB) : Option Nat :=
  (db.mosaics.find? (fun r => !r.filled && !r.active)).map (fun r => r.id)

/-- The clone loop of `mosaic_management.py::set_next_mosaic_active`:
re-create every original mosaic from its ORIGINAL pixel buffer, mark the
clone non-original, make the first clone active. -/
def cloneLoop (env : Env) (fuel : Nat) : List Nat → Nat → DB → MosaicConfig → DB × PyResult Unit
  | [], _, db, _ => (db, .ok ())
  | mid :: rest, i, db, cfg =>
    match readImagePixels db mid IMAGE_PIXELS_CATEGORY_ORIGINAL with
    | .error e => (db, .exn e)
    | .ok orig =>
      match createMosaic env fuel db (env.encodeJpeg orig.pixelArray) cfg with
      | (db1, .exn e) => (db1, .exn e)
      | (db1, .hang) => (db1, .hang)
      | (db1, .ok nid) =>
        match readMosaicMetadata db1 nid with
        | .error e => (db1, .exn e)
        | .ok nm =>
          let nm1 := { nm with original := false, active := if i == 0 then true else nm.active }
          cloneLoop env fuel rest (i + 1) (updateMosaicMetadata db1 nm1) cfg

/-- `mosaic_management.py::set_next_mosaic_active`: activate the first
unfilled inactive mosaic, or clone all originals when none is left. -/
def setNextMosaicActive (env : Env) (fuel : Nat) (db : DB) (meta : MosaicMetadata) : DB × PyResult Unit :=
  match getNextMosaicId db with
  | some nid =>
    match readMosaicMetadata db nid with
    | .error e => (db, .exn e)
    | .ok nm => (updateMosaicMetadata db { nm with active := true }, .ok ())
  | none =>
    let originals := (db.mosaics.filter (fun r => r.original)).map (fun r => r.id)
    cloneLoop env fuel originals 0 db meta.mosaicConfig

/-- The row scan of `persistence.py::delete_mosaic_metadata`: walks the
stored order keeping `new_active` = the most recent id seen before the
target; on finding an inactive target it breaks (keeping the
predecessor), on finding an active target it takes the successor (if
any).  Returns (new_active, target row found). -/
def deleteScan (target : Nat) : List MosaicMetadata → Option Nat → Option Nat × Bool
  | [], newActive => (newActive, false)
  | r :: rs, newActive =>
    if r.id == target then
      if !r.active then (newActive, true)
      else
        match rs with
        | [] => (newActive, true)
        | s :: _ => (some s.id, true)
    else deleteScan target rs (some r.id)

/-- `persistence.py::delete_mosaic_metadata`: delete the metadata row and
set `active = 1` on the scanned `new_active` row whenever one was found —
note the scan yields the predecessor even when the deleted mosaic was not
active.  (The sqlite connection never enables `PRAGMA foreign_keys`, so
the declared ON DELETE CASCADE does not fire; segment/pixel/raw rows
stay.) -/
def deleteMosaicMetadata (db : DB) (m : Nat) : DB × PyResult Unit :=
  let scan := deleteScan m db.mosaics none
  if scan.2 then
    let db1 := { db with mosaics := db.mosaics.filter (fun r => !(r.id == m)) }
    match scan.1 with
    | some nid =>
      ({ db1 with mosaics := db1.mosaics.map (fun r => if r.id == nid then { r with active := true } else r) }, .ok ())
    | none => (db1, .ok ())
  else (db, .exn (.http 404))

/-- `mosaic_management.py::delete_mosaic`: 404 for an unknown id, then
the store-level delete (which may itself reassign `active`), then — only
when the deleted mosaic was active — a second reassignment pass via
`set_next_mosaic_active`. -/
def deleteMosaic (env : Env) (fuel : Nat) (db : DB) (m : Nat) : DB × PyResult Unit :=
  if !(mosaicExists db m) then (db, .exn (.http 404))
  else
    match readMosaicMetadata db m with
    | .error e => (db, .exn e)
    | .ok meta =>
      match deleteMosaicMetadata db m with
      | (db1, .exn e) => (db1, .exn e)
      | (db1, .hang) => (db1, .hang)
      | (db1, .ok _) =>
        if meta.active then setNextMosaicActive env fuel db1 meta else (db1, .ok ())

/-- `mosaic_management.py::reset_mosaic`: clear the mosaic `filled` flag,
restore CURRENT (pixels, jpeg, thumbnail) to the freshly dimmed ORIGINAL,
reset every segment to `filled = false, fillable = is_start_segment`,
re-render the filling gif. -/
def resetMosaic (env : Env) (fuel : Nat) (db : DB) (m : Nat) : DB × PyResult Nat :=
  match readMosaicMetadata db m with
  | .error e => (db, .exn e)
  | .ok meta =>
  match readImagePixels db m IMAGE_PIXELS_CATEGORY_ORIGINAL with
  | .error e => (db, .exn e)
  | .ok orig =>
  match readImagePixels db m IMAGE_PIXELS_CATEGORY_CURRENT with
  | .error e => (db, .exn e)
  | .ok _ =>
  let segs := getSegments db { qmosaicId := some m } false (-1)
  let db1 := updateMosaicMetadata db { meta with filled := false }
  let bg := env.dimBrightness meta.mosaicConfig.mosaicBgBrightness orig.pixelArray
  let db2 := upsertImagePixels db1 ⟨m, IMAGE_PIXELS_CATEGORY_CURRENT, bg⟩
  let db3 := upsertRawImage db2 ⟨m, RAW_IMAGE_CURRENT_JPEG, env.encodeJpeg bg⟩
  let db4 := upsertRawImage db3 ⟨m, RAW_IMAGE_CURRENT_SMALL_JPEG, env.encodeJpeg (env.thumbnailImg env.cfgThumbSize bg)⟩
  let segs1 := segs.map (fun s => { s with filled := false, fillable := s.isStartSegment })
  let db5 := upsertSegments db4 segs1
  match mosaic2gif env fuel db5 m 5 5 with
  | .error e => (db5, .exn e)
  | .ok none => (db5, .hang)
  | .ok (some gif) => (upsertRawImage db5 gif, .ok m)

/-- A value in a fetched sqlite row (rows are plain Python tuples, so
tuple unpacking is checked dynamically against the column count). -/
inductive PyVal where
  | vstr (v : Nat)
  | vint (v : Int)
  | vbool (v : Bool)
deriving DecidableEq, Repr

/-- The rows of `persistence.py::read_mosaic_list`:
`SELECT id, idx, title, active, filled, original` — six columns. -/
def readMosaicListRows (db : DB) : List (List PyVal) :=
  db.mosaics.map (fun r =>
    [.vstr r.id, .vint r.idx, .vstr r.mosaicConfig.title, .vbool r.active, .vbool r.filled, .vbool r.original])

/-- Python truthiness of a row value (ids are non-empty uuid strings,
hence truthy). -/
def pyTruthy : PyVal → Bool
  | .vstr _ => true
  | .vint v => !(v == 0)
  | .vbool b => b

/-- Payload of an id-typed row value. -/
def pyStr : PyVal → Nat
  | .vstr v => v
  | .vint v => v.toNat
  | .vbool _ => 0

/-- Python tuple unpacking `a, b, c, d, e = row`: raises ValueError
unless the row has exactly five entries. -/
def pyUnpack5 (row : List PyVal) : Except PyErr (PyVal × PyVal × PyVal × PyVal × PyVal) :=
  match row with
  | [a, b, c, d, e] => .ok (a, b, c, d, e)
  | _ => .error .valueError

/-- The row iteration of
`mosaic_filling.py::MosaicFillingService._get_active_mosaic_id`, which
unpacks each `read_mosaic_list` row as
`mosaic_id, _, active, filled, _` — five targets against six columns. -/
def getActiveMosaicIdLoop : List (List PyVal) → Option Nat → Except PyErr (Option Nat)
  | [], newActive => .ok newActive
  | row :: rest, newActive =>
    match pyUnpack5 row with
    | .error e => .error e
    | .ok (mid, _, act, fil, _) =>
      if pyTruthy act then .ok (some (pyStr mid))
      else if !(pyTruthy fil) && newActive.isNone then getActiveMosaicIdLoop rest (some (pyStr mid))
      else getActiveMosaicIdLoop rest newActive

/-- `mosaic_filling.py::_get_active_mosaic_id`. -/
def getActiveMosaicId (db : DB) : Except PyErr (Option Nat) :=
  getActiveMosaicIdLoop (readMosaicListRows db) none

/-- The original-mosaic collection loop of
`mosaic_filling.py::_handle_mosaic_end`, which unpacks each row as
`m_id, _, _, _, original` — again five targets against six columns. -/
def collectOriginals5 : List (List PyVal) → Except PyErr (List Nat)
  | [] => .ok []
  | row :: rest =>
    match pyUnpack5 row with
    | .error e => .error e
    | .ok (mid, _, _, _, orig) =>
      match collectOriginals5 rest with
      | .error e => .error e
      | .ok tail => if pyTruthy orig then .ok (pyStr mid :: tail) else .ok tail

/-- The clone loop of `mosaic_filling.py::_handle_mosaic_end` (clones are
re-created from the downsized ORIGINAL_JPEG artifact). -/
def handleCloneLoop (env : Env) (fuel : Nat) : List Nat → Nat → DB → MosaicConfig → DB × PyResult Unit
  | [], _, db, _ => (db, .ok ())
  | mid :: rest, i, db, cfg =>
    match readRawImage db mid RAW_IMAGE_ORIGINAL_JPEG with
    | .error e => (db, .exn e)
    | .ok orig =>
      match createMosaic env fuel db orig.imageBytes cfg with
      | (db1, .exn e) => (db1, .exn e)
      | (db1, .hang) => (db1, .hang)
      | (db1, .ok nid) =>
        match readMosaicMetadata db1 nid with
        | .error e => (db1, .exn e)
        | .ok nm =>
          let nm1 := { nm with original := false, active := if i == 0 then true else nm.active }
          handleCloneLoop env fuel rest (i + 1) (updateMosaicMetadata db1 nm1) cfg

/-- `mosaic_filling.py::_handle_mosaic_end`: persist
`filled = true, active = false`, then look for the next mosaic via
`_get_active_mosaic_id` (whose row unpacking is 5-vs-6) and activate it,
or clone all originals. -/
def handleMosaicEnd (env : Env) (fuel : Nat) (db : DB) (meta : MosaicMetadata) : DB × PyResult Unit :=
  let db1 := updateMosaicMetadata db { meta with filled := true, active := false }
  match getActiveMosaicId db1 with
  | .error e => (db1, .exn e)
  | .ok (some nid) =>
    match readMosaicMetadata db1 nid with
    | .error e => (db1, .exn e)
    | .ok nm => (updateMosaicMetadata db1 { nm with active := true }, .ok ())
  | .ok none =>
    match collectOriginals5 (readMosaicListRows db1) with
    | .error e => (db1, .exn e)
    | .ok origs => handleCloneLoop env fuel origs 0 db1 meta.mosaicConfig

/-- `mosaic_filling.py::_get_segment_sample`, first fallback tier:
MEDIUM unless the desired tier already is MEDIUM, then LOW. -/
def secondBrightness (b : Int) : Int :=
  if b == MEDIUM_BRIGHTNESS then LOW_BRIGHTNESS else MEDIUM_BRIGHTNESS

/-- `mosaic_filling.py::_get_segment_sample`, last fallback tier:
HIGH unless the desired tier already is HIGH, then LOW. -/
def thirdBrightness (b : Int) : Int :=
  if b == HIGH_BRIGHTNESS then LOW_BRIGHTNESS else HIGH_BRIGHTNESS

/-- The fillable-segments-of-one-tier query issued by
`_get_segment_sample` (`random_order=True`, positive limit). -/
def fillableQuery (m : Nat) (b : Int) : SegQuery :=
  { qmosaicId := some m, qbrightness := some b, qfillable := some true }

/-- First draw of `_get_segment_sample`: up to `sampleSize` fillable
segments of the desired tier. -/
def sampleDraw1 (db : DB) (b : Int) (m : Nat) (sampleSize : Nat) : List Segment :=
  getSegments db (fillableQuery m b) true (sampleSize : Int)

/-- Second draw of `_get_segment_sample`: the top-up from
`secondBrightness b`, limited to what the first draw left open. -/
def sampleDraw2 (db : DB) (b : Int) (m : Nat) (sampleSize : Nat) : List Segment :=
  getSegments db (fillableQuery m (secondBrightness b)) true
    ((sampleSize : Int) - (sampleDraw1 db b m sampleSize).length)

/-- Third draw of `_get_segment_sample`: the top-up from
`thirdBrightness b`, limited to what the first two draws left open. -/
def sampleDraw3 (db : DB) (b : Int) (m : Nat) (sampleSize : Nat) : List Segment :=
  getSegments db (fillableQuery m (thirdBrightness b)) true
    ((sampleSize : Int) - ((sampleDraw1 db b m sampleSize ++ sampleDraw2 db b m sampleSize).length : Nat))

/-- `mosaic_filling.py::_get_segment_sample`: a sample of fillable
segments of the desired tier, topped up from `secondBrightness` and then
`thirdBrightness` when short (each top-up limit is
`sample_size - len(segments)` at that point, as in the source). -/
def getSegmentSampleQuery (db : DB) (b : Int) (m : Nat) (sampleSize : Nat) : List Segment :=
  let s1 := sampleDraw1 db b m sampleSize
  if sampleSize ≤ s1.length then s1 else
  let s2 := s1 ++ sampleDraw2 db b m sampleSize
  if sampleSize ≤ s2.length then s2 else
  s2 ++ sampleDraw3 db b m sampleSize

/-- The first row returned by the per-cell query of
`mosaic_filling.py::_get_neighbours`
(`get_segments(mosaic_id=.., row_idx=.., col_idx=..)`, insertion order). -/
def cellSeg (db : DB) (m : Nat) (r c : Int) : Option Segment :=
  (getSegments db { qmosaicId := some m, qrowIdx := some r, qcolIdx := some c } false (-1)).head?

/-- The in-bounds cells of the 3-by-3 window around a segment visited by
`_get_neighbours` (offsets -1, 0, 1 in row-major order; the cell of the
segment itself is included). -/
def neighCells (meta : MosaicMetadata) (seg : Segment) : List (Int × Int) :=
  (([-1, 0, 1] : List Int).flatMap (fun r => ([-1, 0, 1] : List Int).map (fun c => (r, c)))).filterMap
    (fun rc =>
      let nr := (seg.rowIdx : Int) + rc.1
      let nc := (seg.colIdx : Int) + rc.2
      if 0 ≤ nr && nr < (meta.nRows : Int) && 0 ≤ nc && nc < (meta.nCols : Int) then some (nr, nc) else none)

/-- The cell-by-cell collection loop of `_get_neighbours`: the source
subscripts `[0]` on each per-cell query result, so the first empty cell
raises IndexError. -/
def collectCells (db : DB) (mid : Nat) : List (Int × Int) → Except PyErr (List Segment)
  | [] => .ok []
  | rc :: rest =>
    match cellSeg db mid rc.1 rc.2 with
    | none => .error .indexError
    | some s =>
      match collectCells db mid rest with
      | .error e => .error e
      | .ok ys => .ok (s :: ys)

/-- `mosaic_filling.py::_get_neighbours`. -/
def getNeighbours (db : DB) (meta : MosaicMetadata) (seg : Segment) : Except PyErr (List Segment) :=
  collectCells db meta.id (neighCells meta seg)

/-- The per-target-segment body of `mosaic_filling.py::_fill_segments`:
blend the resized upload into the CURRENT working array; when the mosaic
is not yet filled, mark the target FILLED, make its unfilled neighbours
FILLABLE, and upsert those segment rows immediately. -/
def fillLoop (env : Env) (meta : MosaicMetadata) (orig q : Buffer) :
    List Segment → Buffer → DB → Buffer × DB × Option PyErr
  | [], cur, db => (cur, db, none)
  | seg :: rest, cur, db =>
    let segmentData := cropBuf orig seg.yMin seg.yMax seg.xMin seg.xMax
    let resizedQ := env.resizeImg meta.segmentWidth meta.segmentHeight q
    let filtered := env.blendImages meta.mosaicConfig.mosaicBlendValue resizedQ segmentData
    let cur1 := writeRegion cur seg.yMin seg.yMax seg.xMin seg.xMax filtered
    if meta.filled then fillLoop env meta orig q rest cur1 db
    else
      match getNeighbours db meta seg with
      | .error e => (cur1, db, some e)
      | .ok neigh =>
        let updatedNeigh := neigh.map (fun s => if s.filled then s else { s with fillable := true })
        let segU := { seg with filled := true, fillable := false }
        fillLoop env meta orig q rest cur1 (upsertSegments db (updatedNeigh ++ [segU]))

/-- The nsfw gate of `_fill_segments`. -/
def nsfwRejects (env : Env) (q : Buffer) : Bool :=
  env.nsfwEnabled && env.isNsfw q

/-- `mosaic_filling.py::_fill_segments`: nsfw gate, pixel/metadata reads,
the per-segment loop, persisting CURRENT pixels and jpeg, re-rendering
the filling gif, and the end-of-mosaic threshold check (which does not
test `metadata.filled`). -/
def fillSegments (env : Env) (fuel : Nat) (db : DB) (m : Nat) (queryBytes : Bytes) (segments : List Segment) :
    DB × PyResult Unit :=
  let q0 := env.convertRGB (env.decode queryBytes)
  let q := env.centerCropImg env.cfgSegRatioW env.cfgSegRatioH q0
  if nsfwRejects env q then (db, .exn (.http 400))
  else
    match readImagePixels db m IMAGE_PIXELS_CATEGORY_ORIGINAL with
    | .error e => (db, .exn e)
    | .ok orig =>
    match readImagePixels db m IMAGE_PIXELS_CATEGORY_CURRENT with
    | .error e => (db, .exn e)
    | .ok cur =>
    match readMosaicMetadata db m with
    | .error e => (db, .exn e)
    | .ok meta =>
      match fillLoop env meta orig.pixelArray q segments cur.pixelArray db with
      | (_, db1, some e) => (db1, .exn e)
      | (curF, db1, none) =>
        let db2 := upsertImagePixels db1 ⟨m, IMAGE_PIXELS_CATEGORY_CURRENT, curF⟩
        let db3 := upsertRawImage db2 ⟨meta.id, RAW_IMAGE_CURRENT_JPEG, env.encodeJpeg curF⟩
        match mosaic2gif env fuel db3 m 5 5 with
        | .error e => (db3, .exn e)
        | .ok none => (db3, .hang)
        | .ok (some gif) =>
          let db4 := upsertRawImage db3 gif
          if segmentStats db4 m 0 + segmentStats db4 m 1 + segmentStats db4 m 2 < env.cfgNumSegmentsMin then
            handleMosaicEnd env fuel db4 meta
          else (db4, .ok ())

/-- `mosaic_filling.py::fill_segment`: the target rows are fetched by id
only — there is no mosaic filter on this query. -/
def fillSegmentService (env : Env) (fuel : Nat) (db : DB) (m segId : Nat) (queryBytes : Bytes) :
    DB × PyResult Unit :=
  let segs := getSegments db { qid := some segId } false (-1)
  fillSegments env fuel db m queryBytes segs

/-- `mosaic_filling.py::fill_random_segments`. -/
def fillRandomSegments (env : Env) (fuel : Nat) (db : DB) (m : Nat) (queryBytes : Bytes) (quickFill : Bool) :
    DB × PyResult Unit :=
  let numSegments := if quickFill then 5 else 1
  let b := env.classify (env.decode queryBytes)
  fillSegments env fuel db m queryBytes (getSegmentSampleQuery db b m numSegments)

/-- `public_router.py::post_mosaic_segment`: `validate_request_uuid`
checks that the mosaic id exists and that the segment id exists in the
`segments` table of ANY mosaic (`request_validation.py::uuid_exists` has
no mosaic filter), then delegates to the filling service. -/
def postMosaicSegment (env : Env) (fuel : Nat) (db : DB) (m segId : Nat) (queryBytes : Bytes) :
    DB × PyResult Unit :=
  if !(mosaicExists db m) then (db, .exn (.http 404))
  else if !(segmentExists db segId) then (db, .exn (.http 404))
  else fillSegmentService env fuel db m segId queryBytes

/-- `mosaic_filling.py::get_segment_sample` — the body of the
two-parameter service method `(mosaic_id, query_image_bytes)`. -/
def getSegmentSampleService (env : Env) (db : DB) (m : Nat) (queryBytes : Bytes) :
    DB × PyResult (Bytes × Nat) :=
  let q0 := env.thumbnailImg env.cfgSampleMaxSize (env.convertRGB (env.decode queryBytes))
  let wh := bufferSize q0
  let b := env.classify q0
  match getSegmentSampleQuery db b m 1 with
  | [] => (db, .exn .indexError)
  | seg :: _ =>
    match readImagePixels db m IMAGE_PIXELS_CATEGORY_ORIGINAL with
    | .error e => (db, .exn e)
    | .ok orig =>
    match readMosaicMetadata db m with
    | .error e => (db, .exn e)
    | .ok meta =>
      let segData := cropBuf orig.pixelArray seg.yMin seg.yMax seg.xMin seg.xMax
      let resized := env.resizeImg wh.1 wh.2 segData
      let radius :=
        if seg.brightness == HIGH_BRIGHTNESS then meta.mosaicConfig.segmentBlurHigh
        else if seg.brightness == MEDIUM_BRIGHTNESS then meta.mosaicConfig.segmentBlurMedium
        else meta.mosaicConfig.segmentBlurLow
      (db, .ok (env.encodeJpeg (env.blendBlurImages meta.mosaicConfig.segmentBlendValue radius q0 resized), seg.id))

/-- Parameter count of the service method
`MosaicFillingService.get_segment_sample(self, mosaic_id,
query_image_bytes)` — two parameters besides `self`. -/
def getSegmentSampleParamCount : Nat := 2

/-- Positional-argument count of the call
`filling_service.get_segment_sample(m_id, input_image_bytes,
sample_index)` in `public_router.py::post_segment_sample`. -/
def postSegmentSampleArgCount : Nat := 3

/-- `public_router.py::post_segment_sample`: validate the mosaic id, then
call the service method.  Python checks the call arity at run time: a
mismatch raises TypeError, which the handler's `except BaseException`
turns into HTTP 500. -/
def postSegmentSample (env : Env) (db : DB) (m : Nat) (queryBytes : Bytes) (_sampleIdx : Nat) :
    DB × PyResult (Bytes × Nat) :=
  if !(mosaicExists db m) then (db, .exn (.http 404))
  else if postSegmentSampleArgCount == getSegmentSampleParamCount then
    getSegmentSampleService env db m queryBytes
  else (db, .exn (.http 500))

/-- Look a segment row up by id. -/
def segById (db : DB) (i : Nat) : Option Segment :=
  db.segments.find? (fun s => s.id == i)

/-- Number of mosaics currently flagged active. -/
def countActive (db : DB) : Nat :=
  (db.mosaics.filter (fun r => r.active)).length

/-- The segment-state invariant of the spec: FILLED segments are never
FILLABLE. -/
def SegInvariant (db : DB) : Prop :=
  ∀ s ∈ db.segments, s.filled = true → s.fillable = false

/-- Ascending `random_sort_key` order. -/
def KeySorted (l : List Segment) : Prop :=
  l.Pairwise (fun a b => a.randomSortKey ≤ b.randomSortKey)

/- Helper lemmas. -/

theorem updateMosaicMetadata_ne_nil (db : DB) (meta : MosaicMetadata) :
    (updateMosaicMetadata db meta).mosaics ≠ [] := by
  unfold updateMosaicMetadata
  split
  · rename_i h
    cases hm : db.mosaics with
    | nil => rw [hm] at h; simp at h
    | cons a l => simp [hm]
  · simp

theorem getActiveMosaicId_valueError (db : DB) (h : db.mosaics ≠ []) :
    getActiveMosaicId db = .error .valueError := by
  unfold getActiveMosaicId readMosaicListRows
  cases hm : db.mosaics with
  | nil => exact absurd hm h
  | cons a l => simp [getActiveMosaicIdLoop, pyUnpack5]

/-- `_handle_mosaic_end` always raises ValueError right after persisting
the finished flags: `_get_active_mosaic_id` unpacks the 6-column rows of
`read_mosaic_list` into 5 variables, and the row list is never empty
because the finished mosaic itself was just written back. -/
theorem handleMosaicEnd_eq (env : Env) (fuel : Nat) (db : DB) (meta : MosaicMetadata) :
    handleMosaicEnd env fuel db meta =
      (updateMosaicMetadata db { meta with filled := true, active := false }, .exn .valueError) := by
  unfold handleMosaicEnd
  simp only [getActiveMosaicId_valueError _ (updateMosaicMetadata_ne_nil db
    { meta with filled := true, active := false })]

/-- C1: the spec requires that when a fill drops the unfilled count below
`num_segments_min` on a not-yet-filled mosaic, the mosaic is finished
(`filled=true, active=false`) and then the rotation activates the next
unfilled inactive mosaic, or clones the originals.  The code persists the
finished flags but then `_handle_mosaic_end` unconditionally raises
ValueError (5-target tuple unpacking of 6-column rows), so no mosaic is
ever activated and no clone is ever created: the equation below holds for
every store and every mosaic. -/
theorem c1_handle_mosaic_end_crashes (env : Env) (fuel : Nat) (db : DB) (meta : MosaicMetadata) :
    handleMosaicEnd env fuel db meta =
      (updateMosaicMetadata db { meta with filled := true, active := false }, .exn .valueError) :=
  handleMosaicEnd_eq env fuel db meta

/-- C7: the spec says `sampleSegment` takes an optional `sampleIndex` and
returns the (sampleIndex mod pool-size)-th candidate deterministically.
The router endpoint does accept `sample_index` and forwards it, but the
service method `get_segment_sample(self, mosaic_id, query_image_bytes)`
has only two parameters, so the 3-argument call raises TypeError and the
handler turns it into HTTP 500: the endpoint can never return sample
bytes. -/
theorem c7_sample_index_type_error (env : Env) (db : DB) (m : Nat) (queryBytes : Bytes) (sampleIdx : Nat) :
    postSegmentSample env db m queryBytes sampleIdx =
      (db, .exn (.http (if mosaicExists db m then 500 else 404))) := by
  unfold postSegmentSample
  by_cases h : mosaicExists db m <;>
    simp [h, postSegmentSampleArgCount, getSegmentSampleParamCount]

theorem gifLoop_zero_batch (env : Env) (orig : Buffer) (segments : List Segment) :
    ∀ (fuel i : Nat) (cur : Buffer) (acc : List Buffer), i < segments.length →
      gifLoop env orig segments 0 fuel i cur acc = none := by
  intro fuel
  induction fuel with
  | zero => intro i cur acc _; rfl
  | succ n ih =>
    intro i cur acc hi
    unfold gifLoop
    have hcond : i < segments.length + 0 := by omega
    simp only [hcond, if_pos]
    exact ih i _ _ hi

/-- C10: the claim states that the filling-animation frame loop finishes
for every unfilled-segment count `u`, including `1 ≤ u < n_frames_filling`
where the batch size `n = u // n_frames_filling` is zero.  It does not:
with `n = 0` the loop index never advances (`i += 0`) while the guard
`i < u + 0` stays true, so `mosaic_2_gif` never terminates for
`1 ≤ u ≤ 4` — for every fuel bound the loop is still running. -/
theorem c10_gif_loop_diverges (env : Env) (fuel : Nat) (db : DB) (m : Nat)
    (curP origP : ImagePixels)
    (hc : readImagePixels db m IMAGE_PIXELS_CATEGORY_CURRENT = .ok curP)
    (ho : readImagePixels db m IMAGE_PIXELS_CATEGORY_ORIGINAL = .ok origP)
    (h1 : 1 ≤ (getSegments db { qmosaicId := some m, qfilled := some false } true (-1)).length)
    (h4 : (getSegments db { qmosaicId := some m, qfilled := some false } true (-1)).length < 5) :
    mosaic2gif env fuel db m 5 5 = .ok none := by
  have hdiv : (getSegments db { qmosaicId := some m, qfilled := some false } true (-1)).length / 5 = 0 :=
    Nat.div_eq_of_lt h4
  unfold mosaic2gif
  rw [hc, ho]
  simp only [bind, Except.bind]
  rw [hdiv, gifLoop_zero_batch env origP.pixelArray _ fuel 0 curP.pixelArray [] (by omega)]

/-- A store exhibiting the C10 divergence: three unfilled segments. -/
def dbGif : DB :=
  { mosaics := [],
    segments :=
      [{ id := 11, mosaicId := 1, rowIdx := 0, colIdx := 0, xMin := 0, xMax := 1, yMin := 0, yMax := 1,
         brightness := 2, fillable := true, filled := false, isStartSegment := true, randomSortKey := 0 },
       { id := 12, mosaicId := 1, rowIdx := 0, colIdx := 1, xMin := 1, xMax := 2, yMin := 0, yMax := 1,
         brightness := 2, fillable := false, filled := false, isStartSegment := false, randomSortKey := 1 },
       { id := 13, mosaicId := 1, rowIdx := 0, colIdx := 2, xMin := 2, xMax := 3, yMin := 0, yMax := 1,
         brightness := 2, fillable := false, filled := false, isStartSegment := false, randomSortKey := 2 }],
    pixels := [⟨1, 0, [[5, 6, 7]]⟩, ⟨1, 1, [[1, 2, 3]]⟩],
    rawImages := [], nextUuid := 100 }

/-- Shared trivial instantiation of the image/randomness collaborators. -/
def unitEnv : Env :=
  { decode := fun _ => [[0]],
    convertRGB := fun b => b,
    thumbnailImg := fun _ b => b,
    centerCropImg := fun _ _ b => b,
    resizeImg := fun _ _ b => b,
    dimBrightness := fun _ b => b,
    blendImages := fun _ a _ => a,
    blendBlurImages := fun _ _ a _ => a,
    encodeJpeg := fun _ => 0,
    encodeGif := fun _ => 0,
    quantizeFrame := fun b => b,
    classify := fun _ => 2,
    nsfwEnabled := false,
    isNsfw := fun _ => false,
    sortKeys := fun n => List.range n,
    sampleCenter := fun _ _ k => List.range k,
    sampleEdge := fun _ _ k => List.range k,
    cfgNumSegmentsMin := 2,
    cfgNumSegmentsStart := 1,
    cfgSegRatioW := 3,
    cfgSegRatioH := 4,
    cfgThumbSize := 8,
    cfgGifSize := 8,
    cfgOrigMaxSize := 16,
    cfgSampleMaxSize := 16,
    cfgUnusedWeight := 0 }

/-- Witness for C10 at the concrete store with 3 unfilled segments. -/
theorem c10_gif_loop_diverges_witness :
    readImagePixels dbGif 1 IMAGE_PIXELS_CATEGORY_CURRENT = .ok ⟨1, 1, [[1, 2, 3]]⟩ ∧
    readImagePixels dbGif 1 IMAGE_PIXELS_CATEGORY_ORIGINAL = .ok ⟨1, 0, [[5, 6, 7]]⟩ ∧
    1 ≤ (getSegments dbGif { qmosaicId := some 1, qfilled := some false } true (-1)).length ∧
    (getSegments dbGif { qmosaicId := some 1, qfilled := some false } true (-1)).length < 5 ∧
    mosaic2gif unitEnv 1000 dbGif 1 5 5 = .ok none :=
  ⟨rfl, rfl, by decide, by decide,
    c10_gif_loop_diverges unitEnv 1000 dbGif 1 ⟨1, 1, [[1, 2, 3]]⟩ ⟨1, 0, [[5, 6, 7]]⟩
      rfl rfl (by decide) (by decide)⟩

/-- The arithmetic relationship every candidate of the planner loop
satisfies by construction. -/
def ValidCfg (w h : Nat) (c : SegCfg) : Prop :=
  0 < c.segW ∧ 0 < c.segH ∧ c.numCols = w / c.segW ∧ c.numRows = h / c.segH

theorem segConfigCandidate_valid (w h t rw rh : Nat) (wt : Rat) (i : Nat)
    (hrw : 0 < rw) (hrh : 0 < rh) (hi : 0 < i) :
    ValidCfg w h (segConfigCandidate w h t rw rh wt i) := by
  have hw : 0 < rw * i := Nat.mul_pos hrw hi
  have hh : 0 < rh * i := Nat.mul_pos hrh hi
  have ew : w - w % (rw * i) = (rw * i) * (w / (rw * i)) := by
    have := Nat.div_add_mod w (rw * i)
    omega
  have eh : h - h % (rh * i) = (rh * i) * (h / (rh * i)) := by
    have := Nat.div_add_mod h (rh * i)
    omega
  refine ⟨hw, hh, ?_, ?_⟩
  · show (w - w % (rw * i)) / (rw * i) = w / (rw * i)
    rw [ew, Nat.mul_div_cancel_left _ hw]
  · show (h - h % (rh * i)) / (rh * i) = h / (rh * i)
    rw [eh, Nat.mul_div_cancel_left _ hh]

theorem segConfigLoop_valid (w h t rw rh : Nat) (wt : Rat) (hrw : 0 < rw) (hrh : 0 < rh) :
    ∀ (fuel i cns : Nat) (best : Option SegCfg) (cfg : SegCfg), 0 < i →
      (∀ b, best = some b → ValidCfg w h b) →
      segConfigLoop w h t rw rh wt fuel i cns best = some cfg → ValidCfg w h cfg := by
  intro fuel
  induction fuel with
  | zero => intro i cns best cfg _ _ hout; simp [segConfigLoop] at hout
  | succ n ih =>
    intro i cns best cfg hi hbest hout
    unfold segConfigLoop at hout
    by_cases hc : 4 * cns > t
    · simp only [hc, if_pos] at hout
      refine ih (i + 1) _ _ cfg (by omega) ?_ hout
      intro b hb
      rcases hbo : best with _ | b0
      · rw [hbo] at hb
        simp at hb
        rw [← hb]
        exact segConfigCandidate_valid w h t rw rh wt i hrw hrh hi
      · rw [hbo] at hb
        simp at hb
        by_cases hlt : (segConfigCandidate w h t rw rh wt i).score < b0.score
        · rw [if_pos hlt] at hb
          injection hb with hb
          rw [← hb]
          exact segConfigCandidate_valid w h t rw rh wt i hrw hrh hi
        · rw [if_neg hlt] at hb
          injection hb with hb
          rw [← hb]
          exact hbest b0 hbo
    · simp only [hc, if_neg, if_false] at hout
      exact hbest cfg hout

theorem getSegmentConfig_valid (fuel w h t rw rh : Nat) (wt : Rat) (cfg : SegCfg)
    (hrw : 0 < rw) (hrh : 0 < rh) (hout : getSegmentConfig fuel w h t rw rh wt = some cfg) :
    ValidCfg w h cfg := by
  unfold getSegmentConfig at hout
  have hg : 0 < Nat.gcd rw rh := Nat.gcd_pos_of_pos_left rh hrw
  have hrw2 : 0 < rw / Nat.gcd rw rh :=
    Nat.div_pos (Nat.le_of_dvd hrw (Nat.gcd_dvd_left rw rh)) hg
  have hrh2 : 0 < rh / Nat.gcd rw rh :=
    Nat.div_pos (Nat.le_of_dvd hrh (Nat.gcd_dvd_right rw rh)) hg
  exact segConfigLoop_valid w h t _ _ wt hrw2 hrh2 fuel 1 (w * h) none cfg
    (by omega) (by intro b hb; simp at hb) hout

theorem validCfg_bounds (w h : Nat) (c : SegCfg) (hc : ValidCfg w h c) :
    c.numRows * c.numCols ≤ (w / c.segW) * (h / c.segH) ∧
    (h - c.segH * c.numRows) / 2 + c.numRows * c.segH ≤ h ∧
    (w - c.segW * c.numCols) / 2 + c.numCols * c.segW ≤ w := by
  obtain ⟨hw, hh, hcols, hrows⟩ := hc
  refine ⟨?_, ?_, ?_⟩
  · rw [hcols, hrows, Nat.mul_comm]
  · have h1 : c.segH * c.numRows ≤ h := by
      rw [hrows, Nat.mul_comm]
      exact Nat.div_mul_le_self h c.segH
    have h2 : (h - c.segH * c.numRows) / 2 ≤ h - c.segH * c.numRows := Nat.div_le_self _ _
    have h3 : c.numRows * c.segH = c.segH * c.numRows := Nat.mul_comm _ _
    omega
  · have h1 : c.segW * c.numCols ≤ w := by
      rw [hcols, Nat.mul_comm]
      exact Nat.div_mul_le_self w c.segW
    have h2 : (w - c.segW * c.numCols) / 2 ≤ w - c.segW * c.numCols := Nat.div_le_self _ _
    have h3 : c.numCols * c.segW = c.segW * c.numCols := Nat.mul_comm _ _
    omega

/-- C8: every grid configuration the planner returns satisfies
`rows * cols ≤ (width // segW) * (height // segH)`, and the centering
margins computed by `_create_mosaic_metadata` fit inside the source
image: `spaceTop + rows * segH ≤ height` and
`spaceLeft + cols * segW ≤ width`. -/
theorem c8_grid_bounds_and_margins :
    (∀ (fuel w h t rw rh : Nat) (wt : Rat) (cfg : SegCfg), 0 < rw → 0 < rh →
      getSegmentConfig fuel w h t rw rh wt = some cfg →
      cfg.numRows * cfg.numCols ≤ (w / cfg.segW) * (h / cfg.segH)) ∧
    (∀ (env : Env) (fuel : Nat) (db : DB) (imageBytes : Bytes) (mcfg : MosaicConfig)
        (meta : MosaicMetadata) (img : Buffer) (db2 : DB),
      0 < env.cfgSegRatioW → 0 < env.cfgSegRatioH →
      createMosaicMetadata env fuel db imageBytes mcfg = .ok (meta, img, db2) →
      meta.spaceTop + meta.nRows * meta.segmentHeight ≤ (bufferSize img).2 ∧
      meta.spaceLeft + meta.nCols * meta.segmentWidth ≤ (bufferSize img).1) := by
  constructor
  · intro fuel w h t rw rh wt cfg hrw hrh hout
    exact (validCfg_bounds w h cfg (getSegmentConfig_valid fuel w h t rw rh wt cfg hrw hrh hout)).1
  · intro env fuel db imageBytes mcfg meta img db2 hrw hrh hok
    unfold createMosaicMetadata at hok
    rcases hg : getSegmentConfig fuel (bufferSize (env.decode imageBytes)).1
        (bufferSize (env.decode imageBytes)).2 mcfg.numSegments env.cfgSegRatioW env.cfgSegRatioH
        env.cfgUnusedWeight with _ | sc
    · simp only [hg] at hok
      exact absurd hok (by simp)
    · simp only [hg, Except.ok.injEq, Prod.mk.injEq] at hok
      obtain ⟨hmeta, himg, _⟩ := hok
      have hv := getSegmentConfig_valid _ _ _ _ _ _ _ sc hrw hrh hg
      have hb := validCfg_bounds (bufferSize (env.decode imageBytes)).1
        (bufferSize (env.decode imageBytes)).2 sc hv
      rw [← hmeta, ← himg]
      exact ⟨hb.2.1, hb.2.2⟩

/-- Environment whose decoded image is 30 pixels wide and 40 high. -/
def gridEnv : Env :=
  { unitEnv with decode := fun _ => List.replicate 40 (List.replicate 30 0) }

/-- The empty store. -/
def emptyDB : DB :=
  { mosaics := [], segments := [], pixels := [], rawImages := [], nextUuid := 0 }

/-- A style config requesting 12 segments. -/
def cfg12 : MosaicConfig :=
  { title := 0, numSegments := 12, mosaicBgBrightness := 1, mosaicBlendValue := 1,
    segmentBlendValue := 1, segmentBlurLow := 0, segmentBlurMedium := 0, segmentBlurHigh := 0 }

/-- The metadata produced for the C8 witness image. -/
def metaW : MosaicMetadata :=
  { id := 0, idx := -1, active := true, filled := false, original := true,
    segmentWidth := 9, segmentHeight := 12, nRows := 3, nCols := 3,
    spaceTop := 2, spaceLeft := 1, mosaicConfig := cfg12 }

/-- Witness for C8: the planner on a 30 by 40 image with 12 target
segments and ratio (3, 4) yields the 3-by-3 grid of 9-by-12 segments,
and both conjuncts of the theorem hold there. -/
theorem c8_grid_bounds_and_margins_witness :
    (0 < 3 ∧ 0 < 4 ∧
      getSegmentConfig 10 30 40 12 3 4 0 = some ⟨12, 9, 3, 3, 9, 12, 3⟩ ∧
      (3 : Nat) * 3 ≤ (30 / 9) * (40 / 12)) ∧
    (createMosaicMetadata gridEnv 10 emptyDB 0 cfg12 =
        .ok (metaW, List.replicate 40 (List.replicate 30 0), ⟨[], [], [], [], 1⟩) ∧
      metaW.spaceTop + metaW.nRows * metaW.segmentHeight ≤
        (bufferSize (List.replicate 40 (List.replicate 30 0))).2 ∧
      metaW.spaceLeft + metaW.nCols * metaW.segmentWidth ≤
        (bufferSize (List.replicate 40 (List.replicate 30 0))).1) := by
  have hcfg : getSegmentConfig 10 30 40 12 3 4 0 = some ⟨12, 9, 3, 3, 9, 12, 3⟩ := by decide
  have hok : createMosaicMetadata gridEnv 10 emptyDB 0 cfg12 =
      .ok (metaW, List.replicate 40 (List.replicate 30 0), ⟨[], [], [], [], 1⟩) := rfl
  constructor
  · refine ⟨by decide, by decide, hcfg, ?_⟩
    exact c8_grid_bounds_and_margins.1 10 30 40 12 3 4 0 ⟨12, 9, 3, 3, 9, 12, 3⟩
      (by decide) (by decide) hcfg
  · refine ⟨hok, ?_⟩
    exact c8_grid_bounds_and_margins.2 gridEnv 10 emptyDB 0 cfg12 metaW
      (List.replicate 40 (List.replicate 30 0)) ⟨[], [], [], [], 1⟩ (by decide) (by decide) hok

/-- A store with one active mosaic (id 1) followed by two inactive
unfilled mosaics (ids 2 and 3), all fill state empty. -/
def dbDel : DB :=
  { mosaics :=
      [{ id := 1, idx := 1, active := true, filled := false, original := true,
         segmentWidth := 1, segmentHeight := 1, nRows := 1, nCols := 1,
         spaceTop := 0, spaceLeft := 0, mosaicConfig := cfg12 },
       { id := 2, idx := 2, active := false, filled := false, original := false,
         segmentWidth := 1, segmentHeight := 1, nRows := 1, nCols := 1,
         spaceTop := 0, spaceLeft := 0, mosaicConfig := cfg12 },
       { id := 3, idx := 3, active := false, filled := false, original := false,
         segmentWidth := 1, segmentHeight := 1, nRows := 1, nCols := 1,
         spaceTop := 0, spaceLeft := 0, mosaicConfig := cfg12 }],
    segments := [], pixels := [], rawImages := [], nextUuid := 50 }

/-- C2: the spec invariant says at most one mosaic is active after any
operation completes.  Deleting the non-active mosaic 3 from `dbDel`
violates it: `delete_mosaic_metadata` walks the list keeping the most
recent id seen before the target as `new_active` and then sets it active
even though the deleted mosaic was not the active one, so mosaic 2 is
activated while mosaic 1 stays active — the operation returns normally
with two active mosaics. -/
theorem c2_delete_two_active :
    countActive dbDel = 1 ∧
    (deleteMosaic unitEnv 5 dbDel 3).2 = PyResult.ok () ∧
    countActive (deleteMosaic unitEnv 5 dbDel 3).1 = 2 := by
  decide

/-- A store with two mosaics: mosaic 1 (active, a 2-by-3 grid of unit
segments with ids 11..16) and mosaic 2 (a 1-by-1 grid whose single
segment has id 20). -/
def dbC3 : DB :=
  { mosaics :=
      [{ id := 1, idx := 1, active := true, filled := false, original := true,
         segmentWidth := 1, segmentHeight := 1, nRows := 2, nCols := 3,
         spaceTop := 0, spaceLeft := 0, mosaicConfig := cfg12 },
       { id := 2, idx := 2, active := false, filled := false, original := false,
         segmentWidth := 1, segmentHeight := 1, nRows := 1, nCols := 1,
         spaceTop := 0, spaceLeft := 0, mosaicConfig := cfg12 }],
    segments :=
      [{ id := 11, mosaicId := 1, rowIdx := 0, colIdx := 0, xMin := 0, xMax := 1, yMin := 0, yMax := 1,
         brightness := 2, fillable := true, filled := false, isStartSegment := true, randomSortKey := 0 },
       { id := 12, mosaicId := 1, rowIdx := 0, colIdx := 1, xMin := 1, xMax := 2, yMin := 0, yMax := 1,
         brightness := 2, fillable := false, filled := false, isStartSegment := false, randomSortKey := 1 },
       { id := 13, mosaicId := 1, rowIdx := 0, colIdx := 2, xMin := 2, xMax := 3, yMin := 0, yMax := 1,
         brightness := 2, fillable := false, filled := false, isStartSegment := false, randomSortKey := 2 },
       { id := 14, mosaicId := 1, rowIdx := 1, colIdx := 0, xMin := 0, xMax := 1, yMin := 1, yMax := 2,
         brightness := 2, fillable := false, filled := false, isStartSegment := false, randomSortKey := 3 },
       { id := 15, mosaicId := 1, rowIdx := 1, colIdx := 1, xMin := 1, xMax := 2, yMin := 1, yMax := 2,
         brightness := 2, fillable := false, filled := false, isStartSegment := false, randomSortKey := 4 },
       { id := 16, mosaicId := 1, rowIdx := 1, colIdx := 2, xMin := 2, xMax := 3, yMin := 1, yMax := 2,
         brightness := 2, fillable := false, filled := false, isStartSegment := false, randomSortKey := 5 },
       { id := 20, mosaicId := 2, rowIdx := 0, colIdx := 0, xMin := 0, xMax := 1, yMin := 0, yMax := 1,
         brightness := 2, fillable := true, filled := false, isStartSegment := true, randomSortKey := 0 }],
    pixels := [⟨1, 0, [[1, 2, 3], [4, 5, 6]]⟩, ⟨1, 1, [[0, 0, 0], [0, 0, 0]]⟩, ⟨2, 0, [[9]]⟩, ⟨2, 1, [[8]]⟩],
    rawImages := [], nextUuid := 100 }

/-- C3 counterexample: filling mosaic 1 with segment id 20 — a segment
that exists but belongs to mosaic 2 — passes request validation (which
checks the id across all mosaics), raises no not-found error, completes
normally, and marks mosaic 2's segment 20 as filled: the claim that any
segment id not belonging to the given mosaic yields a not-found error
with zero mutation is false. -/
theorem c3_counterexample_cross_mosaic :
    segmentExists dbC3 20 = true ∧
    (segById dbC3 20).map (fun s => (s.mosaicId, s.filled)) = some (2, false) ∧
    (postMosaicSegment unitEnv 30 dbC3 1 20 77).2 = PyResult.ok () ∧
    (segById (postMosaicSegment unitEnv 30 dbC3 1 20 77).1 20).map (fun s => (s.mosaicId, s.filled)) =
      some (2, true) := by
  decide

/-- C3 amended: only a segment id that exists in NO mosaic is rejected —
request validation then fails with a 404 before the service runs, and the
store is untouched.  (A segment id that exists in another mosaic is
processed; see the counterexample.) -/
theorem c3_not_found_only_for_unknown_ids (env : Env) (fuel : Nat) (db : DB) (m segId : Nat)
    (queryBytes : Bytes) (h : segmentExists db segId = false) :
    postMosaicSegment env fuel db m segId queryBytes = (db, .exn (.http 404)) := by
  unfold postMosaicSegment
  by_cases hm : mosaicExists db m <;> simp [hm, h]

/-- Witness for the amended C3 theorem at an id that exists nowhere. -/
theorem c3_not_found_only_for_unknown_ids_witness :
    segmentExists dbC3 999 = false ∧
    postMosaicSegment unitEnv 30 dbC3 1 999 77 = (dbC3, .exn (.http 404)) :=
  ⟨by decide, c3_not_found_only_for_unknown_ids unitEnv 30 dbC3 1 999 77 (by decide)⟩

theorem mem_insertByKey {a s : Segment} {l : List Segment} :
    a ∈ insertByKey s l ↔ a = s ∨ a ∈ l := by
  induction l with
  | nil => simp [insertByKey]
  | cons t ts ih =>
    unfold insertByKey
    by_cases h : s.randomSortKey ≤ t.randomSortKey
    · simp [h]
    · simp only [h, if_neg, if_false, List.mem_cons, ih]
      tauto

theorem sorted_insertByKey {s : Segment} {l : List Segment} (h : KeySorted l) :
    KeySorted (insertByKey s l) := by
  induction l with
  | nil => simp [insertByKey, KeySorted]
  | cons t ts ih =>
    unfold insertByKey
    rcases List.pairwise_cons.mp h with ⟨hts, hsorted⟩
    by_cases hle : s.randomSortKey ≤ t.randomSortKey
    · simp only [hle, if_pos]
      refine List.pairwise_cons.mpr ⟨?_, h⟩
      intro b hb
      rcases List.mem_cons.mp hb with rfl | hb
      · exact hle
      · exact le_trans hle (hts b hb)
    · simp only [hle, if_neg, if_false]
      refine List.pairwise_cons.mpr ⟨?_, ih hsorted⟩
      intro b hb
      rcases mem_insertByKey.mp hb with rfl | hb
      · omega
      · exact hts b hb

theorem mem_sortByKey {a : Segment} {l : List Segment} : a ∈ sortByKey l ↔ a ∈ l := by
  induction l with
  | nil => simp [sortByKey]
  | cons t ts ih => simp [sortByKey, mem_insertByKey, ih]

theorem sorted_sortByKey (l : List Segment) : KeySorted (sortByKey l) := by
  induction l with
  | nil => simp [sortByKey, KeySorted]
  | cons t ts ih => exact sorted_insertByKey ih

theorem length_insertByKey (s : Segment) (l : List Segment) :
    (insertByKey s l).length = l.length + 1 := by
  induction l with
  | nil => rfl
  | cons t ts ih =>
    unfold insertByKey
    by_cases h : s.randomSortKey ≤ t.randomSortKey <;> simp [h, ih]

theorem length_sortByKey (l : List Segment) : (sortByKey l).length = l.length := by
  induction l with
  | nil => rfl
  | cons t ts ih => simp [sortByKey, length_insertByKey, ih]

theorem keySorted_take {l : List Segment} (k : Nat) (h : KeySorted l) :
    KeySorted (l.take k) :=
  List.Pairwise.sublist (List.take_sublist k l) h

theorem getSegments_sorted (db : DB) (q : SegQuery) (lim : Int) :
    KeySorted (getSegments db q true lim) := by
  unfold getSegments
  by_cases h : 0 < lim
  · simp only [h, if_pos]
    exact keySorted_take _ (sorted_sortByKey _)
  · simp only [h, if_neg, if_false]
    exact sorted_sortByKey _

theorem mem_getSegments {s : Segment} {db : DB} {q : SegQuery} {ro : Bool} {lim : Int}
    (h : s ∈ getSegments db q ro lim) : s ∈ db.segments ∧ segMatches q s = true := by
  unfold getSegments at h
  have hmem : s ∈ (if ro then sortByKey (db.segments.filter (segMatches q))
      else db.segments.filter (segMatches q)) := by
    by_cases hl : 0 < lim
    · simp only [hl, if_pos] at h
      exact List.take_subset _ _ h
    · simp only [hl, if_neg, if_false] at h
      exact h
  have hfil : s ∈ db.segments.filter (segMatches q) := by
    by_cases hro : ro
    · rw [if_pos hro] at hmem
      exact mem_sortByKey.mp hmem
    · rw [if_neg hro] at hmem
      exact hmem
  exact ⟨(List.mem_filter.mp hfil).1, (List.mem_filter.mp hfil).2⟩

theorem fillableQuery_matches {s : Segment} {m : Nat} {t : Int} :
    segMatches (fillableQuery m t) s = true ↔
      s.mosaicId = m ∧ s.brightness = t ∧ s.fillable = true := by
  simp [segMatches, fillableQuery]
  tauto

theorem length_getSegments_le (db : DB) (q : SegQuery) (lim : Int) (h : 0 < lim) :
    (getSegments db q true lim).length ≤ lim.toNat := by
  unfold getSegments
  simp only [h, if_pos, List.length_take]
  omega

theorem getSegments_ne_nil (db : DB) (q : SegQuery) (lim : Int) (h : 0 < lim)
    (s0 : Segment) (hs0 : s0 ∈ db.segments) (hm : segMatches q s0 = true) :
    getSegments db q true lim ≠ [] := by
  unfold getSegments
  simp only [h, if_pos]
  have hlen : 0 < (db.segments.filter (segMatches q)).length :=
    List.length_pos.mpr (List.ne_nil_of_mem (List.mem_filter.mpr ⟨hs0, hm⟩))
  have : 0 < ((sortByKey (db.segments.filter (segMatches q))).take lim.toNat).length := by
    rw [List.length_take, length_sortByKey]
    omega
  exact List.length_pos.mp this

/-- C6 amended: the brightness-fallback search returns up to `sampleSize`
FILLABLE segments, each tier draw sorted by `random_sort_key` ascending;
the fallback order is desired tier, then `secondBrightness` (MEDIUM for
LOW and HIGH, LOW for MEDIUM — NOT `HIGH→LOW` as the claim stated), then
`thirdBrightness` (HIGH for LOW and MEDIUM, LOW for HIGH); the result is
non-empty whenever the mosaic has any FILLABLE segment in one of the
three tiers. -/
theorem c6_fallback_search (db : DB) (b : Int) (m : Nat) (sampleSize : Nat)
    (hb : b = LOW_BRIGHTNESS ∨ b = MEDIUM_BRIGHTNESS ∨ b = HIGH_BRIGHTNESS)
    (hn : 1 ≤ sampleSize) :
    (secondBrightness LOW_BRIGHTNESS = MEDIUM_BRIGHTNESS ∧
     secondBrightness MEDIUM_BRIGHTNESS = LOW_BRIGHTNESS ∧
     secondBrightness HIGH_BRIGHTNESS = MEDIUM_BRIGHTNESS ∧
     thirdBrightness LOW_BRIGHTNESS = HIGH_BRIGHTNESS ∧
     thirdBrightness MEDIUM_BRIGHTNESS = HIGH_BRIGHTNESS ∧
     thirdBrightness HIGH_BRIGHTNESS = LOW_BRIGHTNESS) ∧
    (∃ l1 l2 l3, getSegmentSampleQuery db b m sampleSize = l1 ++ l2 ++ l3 ∧
      KeySorted l1 ∧ KeySorted l2 ∧ KeySorted l3 ∧
      (∀ s ∈ l1, s ∈ db.segments ∧ s.mosaicId = m ∧ s.fillable = true ∧ s.brightness = b) ∧
      (∀ s ∈ l2, s ∈ db.segments ∧ s.mosaicId = m ∧ s.fillable = true ∧ s.brightness = secondBrightness b) ∧
      (∀ s ∈ l3, s ∈ db.segments ∧ s.mosaicId = m ∧ s.fillable = true ∧ s.brightness = thirdBrightness b)) ∧
    (getSegmentSampleQuery db b m sampleSize).length ≤ sampleSize ∧
    ((∃ s0 ∈ db.segments, s0.mosaicId = m ∧ s0.fillable = true ∧
        (s0.brightness = LOW_BRIGHTNESS ∨ s0.brightness = MEDIUM_BRIGHTNESS ∨
         s0.brightness = HIGH_BRIGHTNESS)) →
      getSegmentSampleQuery db b m sampleSize ≠ []) := by
  have memFacts : ∀ (t : Int) (lim : Int) (s : Segment),
      s ∈ getSegments db (fillableQuery m t) true lim →
      s ∈ db.segments ∧ s.mosaicId = m ∧ s.fillable = true ∧ s.brightness = t := by
    intro t lim s hs
    obtain ⟨hmem, hmatch⟩ := mem_getSegments hs
    obtain ⟨h1, h2, h3⟩ := fillableQuery_matches.mp hmatch
    exact ⟨hmem, h1, h3, h2⟩
  unfold getSegmentSampleQuery
  have eA : (sampleDraw1 db b m sampleSize).length ≤ sampleSize := by
    have := length_getSegments_le db (fillableQuery m b) (sampleSize : Int) (by omega)
    unfold sampleDraw1
    omega
  have sortA : KeySorted (sampleDraw1 db b m sampleSize) := getSegments_sorted db _ _
  have sortB : KeySorted (sampleDraw2 db b m sampleSize) := getSegments_sorted db _ _
  have sortC : KeySorted (sampleDraw3 db b m sampleSize) := getSegments_sorted db _ _
  have memA : ∀ s ∈ sampleDraw1 db b m sampleSize,
      s ∈ db.segments ∧ s.mosaicId = m ∧ s.fillable = true ∧ s.brightness = b :=
    fun s hs => memFacts b _ s hs
  have memB : ∀ s ∈ sampleDraw2 db b m sampleSize,
      s ∈ db.segments ∧ s.mosaicId = m ∧ s.fillable = true ∧ s.brightness = secondBrightness b :=
    fun s hs => memFacts (secondBrightness b) _ s hs
  have memC : ∀ s ∈ sampleDraw3 db b m sampleSize,
      s ∈ db.segments ∧ s.mosaicId = m ∧ s.fillable = true ∧ s.brightness = thirdBrightness b :=
    fun s hs => memFacts (thirdBrightness b) _ s hs
  refine ⟨by norm_num [secondBrightness, thirdBrightness, LOW_BRIGHTNESS, MEDIUM_BRIGHTNESS,
    HIGH_BRIGHTNESS], ?_, ?_, ?_⟩
  · by_cases h1 : sampleSize ≤ (sampleDraw1 db b m sampleSize).length
    · simp only [h1, if_pos]
      exact ⟨sampleDraw1 db b m sampleSize, [], [], by simp, sortA, by simp [KeySorted],
        by simp [KeySorted], memA, by simp, by simp⟩
    · simp only [h1, if_neg, if_false]
      by_cases h2 : sampleSize ≤ (sampleDraw1 db b m sampleSize ++ sampleDraw2 db b m sampleSize).length
      · simp only [h2, if_pos]
        exact ⟨sampleDraw1 db b m sampleSize, sampleDraw2 db b m sampleSize, [], by simp,
          sortA, sortB, by simp [KeySorted], memA, memB, by simp⟩
      · simp only [h2, if_neg, if_false]
        exact ⟨sampleDraw1 db b m sampleSize, sampleDraw2 db b m sampleSize,
          sampleDraw3 db b m sampleSize, rfl, sortA, sortB, sortC, memA, memB, memC⟩
  · by_cases h1 : sampleSize ≤ (sampleDraw1 db b m sampleSize).length
    · simp only [h1, if_pos]
      omega
    · simp only [h1, if_neg, if_false]
      push_neg at h1
      have eB : (sampleDraw2 db b m sampleSize).length ≤
          ((sampleSize : Int) - (sampleDraw1 db b m sampleSize).length).toNat :=
        length_getSegments_le db _ _ (by omega)
      by_cases h2 : sampleSize ≤ (sampleDraw1 db b m sampleSize ++ sampleDraw2 db b m sampleSize).length
      · simp only [h2, if_pos]
        simp only [List.length_append]
        simp only [List.length_append] at h2
        omega
      · simp only [h2, if_neg, if_false]
        push_neg at h2
        simp only [List.length_append] at h2 ⊢
        have eC : (sampleDraw3 db b m sampleSize).length ≤
            ((sampleSize : Int) -
              ((sampleDraw1 db b m sampleSize ++ sampleDraw2 db b m sampleSize).length : Nat)).toNat := by
          refine length_getSegments_le db _ _ ?_
          simp only [List.length_append]
          omega
        simp only [List.length_append] at eC
        omega
  · rintro ⟨s0, hmem, hm0, hf0, ht0⟩
    have hcover : s0.brightness = b ∨ s0.brightness = secondBrightness b ∨
        s0.brightness = thirdBrightness b := by
      rcases hb with rfl | rfl | rfl <;> rcases ht0 with h | h | h <;>
        simp [secondBrightness, thirdBrightness, LOW_BRIGHTNESS, MEDIUM_BRIGHTNESS, HIGH_BRIGHTNESS, h]
    have hmatch : ∀ t : Int, s0.brightness = t → segMatches (fillableQuery m t) s0 = true := by
      intro t ht
      exact fillableQuery_matches.mpr ⟨hm0, ht, hf0⟩
    by_cases h1 : sampleSize ≤ (sampleDraw1 db b m sampleSize).length
    · simp only [h1, if_pos]
      intro hnil
      rw [hnil] at h1
      simp at h1
      omega
    · simp only [h1, if_neg, if_false]
      push_neg at h1
      by_cases h2 : sampleSize ≤ (sampleDraw1 db b m sampleSize ++ sampleDraw2 db b m sampleSize).length
      · simp only [h2, if_pos]
        intro hnil
        rw [hnil] at h2
        simp at h2
        omega
      · simp only [h2, if_neg, if_false]
        push_neg at h2
        simp only [List.length_append] at h2
        intro hnil
        rcases List.append_eq_nil.mp hnil with ⟨hnil1, hnilC⟩
        rcases List.append_eq_nil.mp hnil1 with ⟨hnilA, hnilB⟩
        rcases hcover with hc | hc | hc
        · exact getSegments_ne_nil db (fillableQuery m b) (sampleSize : Int) (by omega)
            s0 hmem (hmatch b hc) hnilA
        · exact getSegments_ne_nil db (fillableQuery m (secondBrightness b))
            ((sampleSize : Int) - (sampleDraw1 db b m sampleSize).length) (by omega)
            s0 hmem (hmatch _ hc) hnilB
        · refine getSegments_ne_nil db (fillableQuery m (thirdBrightness b))
            ((sampleSize : Int) -
              ((sampleDraw1 db b m sampleSize ++ sampleDraw2 db b m sampleSize).length : Nat)) ?_
            s0 hmem (hmatch _ hc) hnilC
          simp only [List.length_append]
          omega

/-- A store whose mosaic 1 has exactly one fillable LOW segment and one
fillable MEDIUM segment, and no fillable HIGH segment. -/
def dbC6 : DB :=
  { mosaics := [], pixels := [], rawImages := [], nextUuid := 0,
    segments :=
      [{ id := 30, mosaicId := 1, rowIdx := 0, colIdx := 0, xMin := 0, xMax := 1, yMin := 0, yMax := 1,
         brightness := 0, fillable := true, filled := false, isStartSegment := true, randomSortKey := 0 },
       { id := 31, mosaicId := 1, rowIdx := 0, colIdx := 1, xMin := 1, xMax := 2, yMin := 0, yMax := 1,
         brightness := 1, fillable := true, filled := false, isStartSegment := false, randomSortKey := 1 }] }

/-- C6 counterexample: the claim states the fallback tier for HIGH is
LOW.  In `dbC6` no HIGH segment is fillable, a LOW segment is fillable,
yet the search for desired tier HIGH returns the MEDIUM segment: the
code's first fallback for HIGH is MEDIUM, not LOW. -/
theorem c6_counterexample_high_falls_to_medium :
    (∃ s ∈ dbC6.segments, s.mosaicId = 1 ∧ s.fillable = true ∧ s.brightness = LOW_BRIGHTNESS) ∧
    (getSegmentSampleQuery dbC6 HIGH_BRIGHTNESS 1 1).map (fun s => s.brightness) =
      [MEDIUM_BRIGHTNESS] := by
  decide

/-- Witness for the amended C6 theorem: hypotheses hold at
`(dbC6, HIGH, mosaic 1, sampleSize 1)` and the search indeed returns a
non-empty sample there. -/
theorem c6_fallback_search_witness :
    (HIGH_BRIGHTNESS = LOW_BRIGHTNESS ∨ HIGH_BRIGHTNESS = MEDIUM_BRIGHTNESS ∨
      HIGH_BRIGHTNESS = HIGH_BRIGHTNESS) ∧
    1 ≤ 1 ∧
    getSegmentSampleQuery dbC6 HIGH_BRIGHTNESS 1 1 ≠ [] :=
  ⟨by decide, by decide,
    (c6_fallback_search dbC6 HIGH_BRIGHTNESS 1 1 (by decide) (by decide)).2.2.2 (by decide)⟩

theorem segments_updateMosaicMetadata (db : DB) (meta : MosaicMetadata) :
    (updateMosaicMetadata db meta).segments = db.segments := by
  unfold updateMosaicMetadata
  split <;> rfl

theorem mem_segUpsertList {t s : Segment} {l : List Segment} (h : t ∈ segUpsertList l s) :
    t = s ∨ t ∈ l := by
  unfold segUpsertList at h
  split at h
  · rcases List.mem_map.mp h with ⟨u, hu, he⟩
    by_cases hid : u.id == s.id
    · rw [if_pos hid] at he
      exact Or.inl he.symm
    · rw [if_neg hid] at he
      exact Or.inr (he ▸ hu)
  · rcases List.mem_append.mp h with hl | hr
    · exact Or.inr hl
    · simp at hr
      exact Or.inl hr

theorem segInvariant_upsertSegment (db : DB) (s : Segment) (hdb : SegInvariant db)
    (hs : s.filled = true → s.fillable = false) : SegInvariant (upsertSegment db s) := by
  intro t ht hf
  rcases mem_segUpsertList ht with rfl | hmem
  · exact hs hf
  · exact hdb t hmem hf

theorem segInvariant_upsertSegments (db : DB) (L : List Segment) (hdb : SegInvariant db)
    (hL : ∀ s ∈ L, s.filled = true → s.fillable = false) :
    SegInvariant (upsertSegments db L) := by
  induction L generalizing db with
  | nil => exact hdb
  | cons s rest ih =>
    have step : SegInvariant (upsertSegment db s) :=
      segInvariant_upsertSegment db s hdb (hL s (List.mem_cons_self s rest))
    exact ih (upsertSegment db s) step (fun u hu => hL u (List.mem_cons_of_mem s hu))

theorem cellSeg_some_mem {db : DB} {mid : Nat} {r c : Int} {s : Segment}
    (h : cellSeg db mid r c = some s) : s ∈ db.segments := by
  unfold cellSeg at h
  have := List.mem_of_mem_head? h
  exact (mem_getSegments this).1

theorem collectCells_mem {db : DB} {mid : Nat} :
    ∀ {cells : List (Int × Int)} {ys : List Segment}, collectCells db mid cells = .ok ys →
      ∀ u ∈ ys, u ∈ db.segments := by
  intro cells
  induction cells with
  | nil =>
    intro ys h u hu
    simp only [collectCells, Except.ok.injEq] at h
    rw [← h] at hu
    simp at hu
  | cons rc rest ih =>
    intro ys h u hu
    unfold collectCells at h
    rcases hc : cellSeg db mid rc.1 rc.2 with _ | s
    · rw [hc] at h
      simp at h
    · rw [hc] at h
      rcases hr : collectCells db mid rest with e | zs
      · rw [hr] at h
        simp at h
      · rw [hr] at h
        simp only [Except.ok.injEq] at h
        rw [← h] at hu
        rcases List.mem_cons.mp hu with rfl | hu2
        · exact cellSeg_some_mem hc
        · exact ih hr u hu2

theorem fillLoop_inv (env : Env) (meta : MosaicMetadata) (orig q : Buffer) :
    ∀ (l : List Segment) (cur : Buffer) (db : DB), SegInvariant db →
      SegInvariant (fillLoop env meta orig q l cur db).2.1 := by
  intro l
  induction l with
  | nil => intro cur db hdb; exact hdb
  | cons seg rest ih =>
    intro cur db hdb
    unfold fillLoop
    by_cases hf : meta.filled
    · simp only [hf, if_pos]
      exact ih _ db hdb
    · simp only [hf, if_neg, if_false]
      rcases hn : getNeighbours db meta seg with e | neigh
      · exact hdb
      · have hneigh : ∀ u ∈ neigh, u ∈ db.segments := collectCells_mem hn
        refine ih _ _ (segInvariant_upsertSegments db _ hdb ?_)
        intro s hs
        rcases List.mem_append.mp hs with hs1 | hs2
        · rcases List.mem_map.mp hs1 with ⟨u, hu, he⟩
          by_cases huf : u.filled
          · rw [if_pos huf] at he
            rw [← he]
            intro hf2
            exact hdb u (hneigh u hu) hf2
          · rw [if_neg huf] at he
            rw [← he]
            intro hf2
            simp at hf2
            exact absurd hf2 huf
        · simp at hs2
          rw [hs2]
          intro _
          rfl

theorem mem_idxMap {t : α} {f : Nat → α → α} :
    ∀ {k : Nat} {l : List α}, t ∈ idxMap f k l → ∃ i u, u ∈ l ∧ t = f i u := by
  intro k l
  induction l generalizing k with
  | nil => intro h; simp [idxMap] at h
  | cons x xs ih =>
    intro h
    unfold idxMap at h
    rcases List.mem_cons.mp h with rfl | h2
    · exact ⟨k, x, List.mem_cons_self x xs, rfl⟩
    · rcases ih h2 with ⟨i, u, hu, he⟩
      exact ⟨i, u, List.mem_cons_of_mem x hu, he⟩

theorem markStart_filled {l : List Segment} {idxs : List Nat}
    (h : ∀ s ∈ l, s.filled = false) : ∀ s ∈ markStart l idxs, s.filled = false := by
  unfold markStart
  induction idxs generalizing l with
  | nil => exact h
  | cons i rest ih =>
    intro s hs
    refine ih (l := idxMap (fun j s => if j == i then { s with fillable := true, isStartSegment := true } else s) 0 l) ?_ s hs
    intro u hu
    rcases mem_idxMap hu with ⟨j, v, hv, he⟩
    by_cases hj : j == i
    · rw [he, if_pos hj]
      exact h v hv
    · rw [he, if_neg hj]
      exact h v hv

theorem createSegments_filled {env : Env} {meta : MosaicMetadata} {pixels : Buffer}
    {firstId : Nat} {segs : List Segment}
    (h : createSegments env meta pixels firstId = .ok segs) :
    ∀ s ∈ segs, s.filled = false := by
  unfold createSegments at h
  simp only [] at h
  split at h
  · simp only [Except.ok.injEq] at h
    have hraw : ∀ s ∈ (allCells meta).map
        (fun cr => mkSegment env meta pixels (env.sortKeys (meta.nCols * meta.nRows)) firstId cr.1 cr.2),
        s.filled = false := by
      intro s hs
      rcases List.mem_map.mp hs with ⟨cr, _, he⟩
      rw [← he]
      rfl
    have hbucket : ∀ (center : Bool) (tier : Int),
        ∀ s ∈ ((allCells meta).map
          (fun cr => mkSegment env meta pixels (env.sortKeys (meta.nCols * meta.nRows)) firstId cr.1 cr.2)).filter
          (fun s => segmentPosition meta s.rowIdx s.colIdx == center && s.brightness == tier),
          s.filled = false := by
      intro center tier s hs
      exact hraw s (List.mem_filter.mp hs).1
    have hpick : ∀ (tier : Int) (cList eList : List Segment),
        (∀ s ∈ cList, s.filled = false) → (∀ s ∈ eList, s.filled = false) →
        (∀ s ∈ (pickStart env cList eList tier).1, s.filled = false) ∧
        (∀ s ∈ (pickStart env cList eList tier).2, s.filled = false) := by
      intro tier cList eList hc he
      unfold pickStart
      by_cases hcond : (env.sampleCenter tier cList.length (min env.cfgNumSegmentsStart cList.length)).length <
          env.cfgNumSegmentsStart
      · simp only [hcond, if_pos]
        exact ⟨markStart_filled hc, markStart_filled he⟩
      · simp only [hcond, if_neg, if_false]
        exact ⟨markStart_filled hc, he⟩
    rw [← h]
    intro s hs
    rcases List.mem_append.mp hs with h5 | h6
    rotate_left
    · exact (hpick 2 _ _ (hbucket true 2) (hbucket false 2)).2 s h6
    rcases List.mem_append.mp h5 with h4 | h6
    rotate_left
    · exact (hpick 2 _ _ (hbucket true 2) (hbucket false 2)).1 s h6
    rcases List.mem_append.mp h4 with h3 | h6
    rotate_left
    · exact (hpick 1 _ _ (hbucket true 1) (hbucket false 1)).2 s h6
    rcases List.mem_append.mp h3 with h2 | h6
    rotate_left
    · exact (hpick 1 _ _ (hbucket true 1) (hbucket false 1)).1 s h6
    rcases List.mem_append.mp h2 with h1 | h6
    · exact (hpick 0 _ _ (hbucket true 0) (hbucket false 0)).1 s h1
    · exact (hpick 0 _ _ (hbucket true 0) (hbucket false 0)).2 s h6
  · exact absurd h (by simp)

theorem segInvariant_upsertRawImage (db : DB) (r : RawImage) (hdb : SegInvariant db) :
    SegInvariant (upsertRawImage db r) :=
  fun s hs => hdb s hs

theorem segInvariant_createMosaic (env : Env) (fuel : Nat) (db : DB) (imageBytes : Bytes)
    (cfg : MosaicConfig) (hdb : SegInvariant db) :
    SegInvariant (createMosaic env fuel db imageBytes cfg).1 := by
  unfold createMosaic
  simp only []
  split
  · exact hdb
  · rename_i meta image db0 heq
    have hdb0 : SegInvariant db0 := by
      unfold createMosaicMetadata at heq
      simp only [] at heq
      split at heq
      · exact absurd heq (by simp)
      · simp only [Except.ok.injEq, Prod.mk.injEq] at heq
        obtain ⟨h1, h2, h3⟩ := heq
        rw [← h3]
        intro s hs
        exact hdb s hs
    split
    · intro s hs
      exact hdb0 s hs
    · rename_i segs hsegs
      split
      · refine segInvariant_upsertSegments _ _ (fun t ht => hdb0 t ht) ?_
        intro t ht hf
        have hz := createSegments_filled hsegs t ht
        rw [hz] at hf
        exact absurd hf (by simp)
      · refine segInvariant_upsertSegments _ _ (fun t ht => hdb0 t ht) ?_
        intro t ht hf
        have hz := createSegments_filled hsegs t ht
        rw [hz] at hf
        exact absurd hf (by simp)
      · refine segInvariant_upsertRawImage _ _ ?_
        refine segInvariant_upsertSegments _ _ (fun t ht => hdb0 t ht) ?_
        intro t ht hf
        have hz := createSegments_filled hsegs t ht
        rw [hz] at hf
        exact absurd hf (by simp)

theorem segInvariant_handleMosaicEnd (env : Env) (fuel : Nat) (db : DB) (meta : MosaicMetadata)
    (hdb : SegInvariant db) : SegInvariant (handleMosaicEnd env fuel db meta).1 := by
  rw [handleMosaicEnd_eq]
  intro s hs
  rw [segments_updateMosaicMetadata] at hs
  exact hdb s hs

theorem segInvariant_fillSegments (env : Env) (fuel : Nat) (db : DB) (m : Nat)
    (queryBytes : Bytes) (segments : List Segment) (hdb : SegInvariant db) :
    SegInvariant (fillSegments env fuel db m queryBytes segments).1 := by
  unfold fillSegments
  simp only []
  split
  · exact hdb
  · split
    · exact hdb
    · split
      · exact hdb
      · split
        · exact hdb
        · split
          · rename_i A orig hA B cur hB C meta hC D fst db1 e heq
            have h0 := fillLoop_inv env meta orig.pixelArray
              (env.centerCropImg env.cfgSegRatioW env.cfgSegRatioH (env.convertRGB (env.decode queryBytes)))
              segments cur.pixelArray db hdb
            rw [heq] at h0
            exact h0
          · rename_i A orig hA B cur hB C meta hC D curF db1 heq
            have hdb1 : SegInvariant db1 := by
              have h0 := fillLoop_inv env meta orig.pixelArray
                (env.centerCropImg env.cfgSegRatioW env.cfgSegRatioH (env.convertRGB (env.decode queryBytes)))
                segments cur.pixelArray db hdb
              rw [heq] at h0
              exact h0
            split
            · intro s hs
              exact hdb1 s hs
            · intro s hs
              exact hdb1 s hs
            · split
              · refine segInvariant_handleMosaicEnd env fuel _ meta ?_
                intro s hs
                exact hdb1 s hs
              · intro s hs
                exact hdb1 s hs

theorem segInvariant_resetMosaic (env : Env) (fuel : Nat) (db : DB) (m : Nat)
    (hdb : SegInvariant db) : SegInvariant (resetMosaic env fuel db m).1 := by
  unfold resetMosaic
  simp only []
  split
  · exact hdb
  · split
    · exact hdb
    · split
      · exact hdb
      · split
        · refine segInvariant_upsertSegments _ _ ?_ ?_
          · intro s hs
            simp only [upsertRawImage, upsertImagePixels] at hs
            rw [segments_updateMosaicMetadata] at hs
            exact hdb s hs
          · intro s hs hf
            rcases List.mem_map.mp hs with ⟨u, _, he⟩
            rw [← he] at hf
            simp at hf
        · refine segInvariant_upsertSegments _ _ ?_ ?_
          · intro s hs
            simp only [upsertRawImage, upsertImagePixels] at hs
            rw [segments_updateMosaicMetadata] at hs
            exact hdb s hs
          · intro s hs hf
            rcases List.mem_map.mp hs with ⟨u, _, he⟩
            rw [← he] at hf
            simp at hf
        · intro s hs
          refine segInvariant_upsertSegments _ _ ?_ ?_ s hs
          · intro t ht
            simp only [upsertRawImage, upsertImagePixels] at ht
            rw [segments_updateMosaicMetadata] at ht
            exact hdb t ht
          · intro t ht hf
            rcases List.mem_map.mp ht with ⟨u, _, he⟩
            rw [← he] at hf
            simp at hf

theorem segInvariant_finishMosaic (env : Env) (db : DB) (meta : MosaicMetadata)
    (hdb : SegInvariant db) : SegInvariant (finishMosaic env db meta).1 := by
  unfold finishMosaic
  simp only []
  split
  · intro s hs
    rw [segments_updateMosaicMetadata] at hs
    exact hdb s hs
  · split
    · intro s hs
      rw [segments_updateMosaicMetadata] at hs
      exact hdb s hs
    · intro s hs
      simp only [upsertRawImage, upsertImagePixels] at hs
      rw [segments_updateMosaicMetadata] at hs
      exact hdb s hs

/-- C5: every operation that touches segment rows preserves (or
establishes) the invariant `filled = true → fillable = false`, for every
segment of every mosaic: createMosaic (segment creation), the segment
fill, resetMosaic and finishMosaic. -/
theorem c5_filled_never_fillable :
    (∀ (env : Env) (fuel : Nat) (db : DB) (imageBytes : Bytes) (cfg : MosaicConfig),
      SegInvariant db → SegInvariant (createMosaic env fuel db imageBytes cfg).1) ∧
    (∀ (env : Env) (fuel : Nat) (db : DB) (m : Nat) (queryBytes : Bytes) (segments : List Segment),
      SegInvariant db → SegInvariant (fillSegments env fuel db m queryBytes segments).1) ∧
    (∀ (env : Env) (fuel : Nat) (db : DB) (m : Nat),
      SegInvariant db → SegInvariant (resetMosaic env fuel db m).1) ∧
    (∀ (env : Env) (db : DB) (meta : MosaicMetadata),
      SegInvariant db → SegInvariant (finishMosaic env db meta).1) :=
  ⟨segInvariant_createMosaic, segInvariant_fillSegments, segInvariant_resetMosaic,
    segInvariant_finishMosaic⟩

/-- Witness for C5: the invariant holds of the concrete store `dbC3` and
is preserved by a concrete fill there. -/
theorem c5_filled_never_fillable_witness :
    SegInvariant dbC3 ∧ SegInvariant (fillSegments unitEnv 30 dbC3 1 0 []).1 :=
  ⟨by unfold SegInvariant; decide,
   c5_filled_never_fillable.2.1 unitEnv 30 dbC3 1 0 [] (by unfold SegInvariant; decide)⟩

/- C4 helper lemmas: the INSERT OR REPLACE fold and the neighbour query. -/

theorem segUpsertList_last {l : List Segment} {s : Segment} :
    ∀ t ∈ segUpsertList l s, t.id = s.id → t = s := by
  intro t ht hid
  unfold segUpsertList at ht
  split at ht
  · rcases List.mem_map.mp ht with ⟨u, hu, he⟩
    by_cases h : (u.id == s.id) = true
    · rw [if_pos h] at he
      exact he.symm
    · rw [if_neg h] at he
      rw [← he] at hid
      simp [hid] at h
  · rcases List.mem_append.mp ht with h1 | h2
    · rename_i hnone
      have hall := List.any_eq_false.mp (Bool.not_eq_true _ ▸ hnone)
      have := hall t h1
      simp [hid] at this
    · simpa using h2

theorem segUpsertList_self (l : List Segment) (s : Segment) : s ∈ segUpsertList l s := by
  unfold segUpsertList
  split
  · rename_i h
    rcases List.any_eq_true.mp h with ⟨u, hu, hid⟩
    exact List.mem_map.mpr ⟨u, hu, by rw [if_pos hid]⟩
  · exact List.mem_append.mpr (Or.inr (by simp))

theorem mem_segUpsertList_of_ne {l : List Segment} {v w : Segment}
    (hw : w ∈ l) (hne : w.id ≠ v.id) : w ∈ segUpsertList l v := by
  unfold segUpsertList
  split
  · refine List.mem_map.mpr ⟨w, hw, ?_⟩
    rw [if_neg (by simp [hne])]
  · exact List.mem_append.mpr (Or.inl hw)

theorem foldl_segUpsert_preserve :
    ∀ (L : List Segment) {l : List Segment} {w : Segment},
      (∀ v ∈ L, v.id ≠ w.id) → w ∈ l → (∀ t ∈ l, t.id = w.id → t = w) →
      w ∈ L.foldl segUpsertList l ∧ ∀ t ∈ L.foldl segUpsertList l, t.id = w.id → t = w := by
  intro L
  induction L with
  | nil => intro l w _ hw hall; exact ⟨hw, hall⟩
  | cons v L ih =>
    intro l w hL hw hall
    have hv : v.id ≠ w.id := hL v (List.mem_cons_self v L)
    simp only [List.foldl_cons]
    refine ih (fun u hu => hL u (List.mem_cons_of_mem v hu)) ?_ ?_
    · exact mem_segUpsertList_of_ne hw (fun h => hv h.symm)
    · intro t ht hid
      rcases mem_segUpsertList ht with rfl | h2
      · exact absurd hid hv
      · exact hall t h2 hid

theorem foldl_segUpsert_lastWins (L1 : List Segment) (u : Segment) (L2 : List Segment)
    (l : List Segment) (hL2 : ∀ v ∈ L2, v.id ≠ u.id) :
    u ∈ (L1 ++ u :: L2).foldl segUpsertList l ∧
    ∀ t ∈ (L1 ++ u :: L2).foldl segUpsertList l, t.id = u.id → t = u := by
  rw [List.foldl_append]
  simp only [List.foldl_cons]
  exact foldl_segUpsert_preserve L2 hL2 (segUpsertList_self _ _) segUpsertList_last

theorem segments_upsertSegments :
    ∀ (L : List Segment) (db : DB), (upsertSegments db L).segments = L.foldl segUpsertList db.segments := by
  intro L
  induction L with
  | nil => intro db; rfl
  | cons s L ih =>
    intro db
    unfold upsertSegments at ih ⊢
    simp only [List.foldl_cons]
    exact ih (upsertSegment db s)

theorem mem_pixUpsertList {t s : ImagePixels} {l : List ImagePixels} (h : t ∈ pixUpsertList l s) :
    t = s ∨ t ∈ l := by
  unfold pixUpsertList at h
  split at h
  · rcases List.mem_map.mp h with ⟨u, hu, he⟩
    by_cases hc : (u.mosaicId == s.mosaicId && u.category == s.category) = true
    · rw [if_pos hc] at he
      exact Or.inl he.symm
    · rw [if_neg hc] at he
      exact Or.inr (he ▸ hu)
  · rcases List.mem_append.mp h with h1 | h2
    · exact Or.inr h1
    · exact Or.inl (by simpa using h2)

theorem pixUpsertList_keep {l : List ImagePixels} {s p : ImagePixels}
    (hp : p ∈ l) (hne : p.mosaicId ≠ s.mosaicId ∨ p.category ≠ s.category) :
    p ∈ pixUpsertList l s := by
  unfold pixUpsertList
  split
  · refine List.mem_map.mpr ⟨p, hp, ?_⟩
    rw [if_neg]
    simp only [Bool.and_eq_true, beq_iff_eq]
    tauto
  · exact List.mem_append.mpr (Or.inl hp)

theorem pixels_updateMosaicMetadata (db : DB) (meta : MosaicMetadata) :
    (updateMosaicMetadata db meta).pixels = db.pixels := by
  unfold updateMosaicMetadata
  split <;> rfl

theorem readMosaicMetadata_id {db : DB} {m : Nat} {meta : MosaicMetadata}
    (h : readMosaicMetadata db m = .ok meta) : meta.id = m := by
  unfold readMosaicMetadata at h
  split at h
  · rename_i r heq
    injection h with h2
    subst h2
    have := List.find?_some heq
    simpa using this
  · exact absurd h (by simp)

theorem markFillable_id (u : Segment) :
    ((if u.filled then u else { u with fillable := true }) : Segment).id = u.id := by
  split <;> rfl

theorem nodup_map_id_inj :
    ∀ {l : List Segment}, (l.map Segment.id).Nodup →
      ∀ {a}, a ∈ l → ∀ {b}, b ∈ l → a.id = b.id → a = b := by
  intro l
  induction l with
  | nil => intro _ a ha; simp at ha
  | cons x xs ih =>
    intro hN a ha b hb he
    simp only [List.map_cons, List.nodup_cons] at hN
    obtain ⟨hx, hN2⟩ := hN
    rcases List.mem_cons.mp ha with rfl | ha2
    · rcases List.mem_cons.mp hb with rfl | hb2
      · rfl
      · exact absurd (by rw [he]; exact List.mem_map_of_mem _ hb2) hx
    · rcases List.mem_cons.mp hb with rfl | hb2
      · exact absurd (by rw [← he]; exact List.mem_map_of_mem _ ha2) hx
      · exact ih hN2 ha2 hb2 he

theorem filter_beq_id_single :
    ∀ {l : List Segment}, (l.map Segment.id).Nodup → ∀ {seg : Segment}, seg ∈ l →
      l.filter (fun t => t.id == seg.id) = [seg] := by
  intro l
  induction l with
  | nil => intro _ seg h; simp at h
  | cons x xs ih =>
    intro hN seg hseg
    simp only [List.map_cons, List.nodup_cons] at hN
    obtain ⟨hx, hN2⟩ := hN
    rcases List.mem_cons.mp hseg with rfl | h2
    · simp only [List.filter_cons, beq_self_eq_true, if_pos]
      have hnone : ∀ t ∈ xs, ¬((t.id == seg.id) = true) := by
        intro t ht hbeq
        have he : t.id = seg.id := by simpa using hbeq
        exact hx (by rw [← he]; exact List.mem_map_of_mem _ ht)
      rw [List.filter_eq_nil_iff.mpr hnone]
    · simp only [List.filter_cons]
      rw [if_neg ?_]
      · exact ih hN2 h2
      · intro hbeq
        have he : x.id = seg.id := by simpa using hbeq
        exact hx (by rw [he]; exact List.mem_map_of_mem _ h2)

theorem getSegments_id_single {db : DB} {seg : Segment}
    (hN : (db.segments.map Segment.id).Nodup) (hseg : seg ∈ db.segments) :
    getSegments db { qid := some seg.id } false (-1) = [seg] := by
  unfold getSegments
  simp only []
  rw [if_neg (by decide : ¬((0 : Int) < -1)), if_neg (by simp : ¬(false = true))]
  rw [List.filter_congr (fun t _ => show segMatches { qid := some seg.id } t = (t.id == seg.id) by
    simp [segMatches])]
  exact filter_beq_id_single hN hseg

theorem collectCells_forall2 {db : DB} {mid : Nat} :
    ∀ {cells : List (Int × Int)} {ys : List Segment}, collectCells db mid cells = .ok ys →
      List.Forall₂ (fun rc u => cellSeg db mid rc.1 rc.2 = some u) cells ys := by
  intro cells
  induction cells with
  | nil =>
    intro ys h
    simp only [collectCells, Except.ok.injEq] at h
    rw [← h]
    exact List.Forall₂.nil
  | cons rc rest ih =>
    intro ys h
    unfold collectCells at h
    rcases hc : cellSeg db mid rc.1 rc.2 with _ | s
    · rw [hc] at h
      exact absurd h (by simp)
    · rw [hc] at h
      rcases hr : collectCells db mid rest with e | zs
      · rw [hr] at h
        exact absurd h (by simp)
      · rw [hr] at h
        simp only [Except.ok.injEq] at h
        rw [← h]
        exact List.Forall₂.cons hc (ih hr)

theorem forall2_exists_left {α β : Type} {R : α → β → Prop} :
    ∀ {l1 : List α} {l2 : List β}, List.Forall₂ R l1 l2 → ∀ b ∈ l2, ∃ a ∈ l1, R a b := by
  intro l1 l2 h
  induction h with
  | nil => intro b hb; simp at hb
  | cons ha htail ih =>
    intro b hb
    rcases List.mem_cons.mp hb with rfl | hb2
    · exact ⟨_, List.mem_cons_self _ _, ha⟩
    · rcases ih b hb2 with ⟨a, ha2, hR⟩
      exact ⟨a, List.mem_cons_of_mem _ ha2, hR⟩

theorem forall2_pairwise {α β : Type} {R : α → β → Prop} {S : α → α → Prop} {T : β → β → Prop}
    (hc : ∀ a b a2 b2, R a b → R a2 b2 → S a a2 → T b b2) :
    ∀ {l1 : List α} {l2 : List β}, List.Forall₂ R l1 l2 → l1.Pairwise S → l2.Pairwise T := by
  intro l1 l2 h
  induction h with
  | nil => intro _; exact List.Pairwise.nil
  | cons ha htail ih =>
    rename_i a b as2 bs2
    intro hp
    rcases List.pairwise_cons.mp hp with ⟨hS, hp2⟩
    refine List.Pairwise.cons ?_ (ih hp2)
    intro b2 hb2
    rcases forall2_exists_left htail b2 hb2 with ⟨a2, ha2, hR2⟩
    exact hc a b a2 b2 ha hR2 (hS a2 ha2)

theorem cellSeg_coords {db : DB} {mid : Nat} {r c : Int} {s : Segment}
    (h : cellSeg db mid r c = some s) :
    s ∈ db.segments ∧ s.mosaicId = mid ∧ (s.rowIdx : Int) = r ∧ (s.colIdx : Int) = c := by
  unfold cellSeg at h
  have hm := List.mem_of_mem_head? h
  obtain ⟨h1, h2⟩ := mem_getSegments hm
  simp only [segMatches, Bool.and_eq_true, beq_iff_eq] at h2
  exact ⟨h1, h2.1.1.1.1.1.2, h2.1.1.1.1.2, h2.1.1.1.2⟩

theorem neighCells_nodup (meta : MosaicMetadata) (seg : Segment) : (neighCells meta seg).Nodup := by
  unfold neighCells
  refine List.Nodup.filterMap ?_ (by decide)
  intro a a2 b hb hb2
  simp only [Option.mem_def] at hb hb2
  split at hb
  · split at hb2
    · injection hb with hb3
      injection hb2 with hb4
      rw [← hb3] at hb4
      obtain ⟨x1, x2⟩ := a
      obtain ⟨y1, y2⟩ := a2
      simp only [Prod.mk.injEq] at hb4 ⊢
      omega
    · exact absurd hb2 (by simp)
  · exact absurd hb (by simp)

theorem mem_neighCells (meta : MosaicMetadata) (seg : Segment) (r c : Int) :
    (r, c) ∈ neighCells meta seg ↔
      ((seg.rowIdx : Int) - 1 ≤ r ∧ r ≤ (seg.rowIdx : Int) + 1 ∧
       (seg.colIdx : Int) - 1 ≤ c ∧ c ≤ (seg.colIdx : Int) + 1 ∧
       0 ≤ r ∧ r < (meta.nRows : Int) ∧ 0 ≤ c ∧ c < (meta.nCols : Int)) := by
  unfold neighCells
  simp only [List.mem_filterMap]
  constructor
  · rintro ⟨rc, hmem, hf⟩
    split at hf
    · rename_i hcond
      injection hf with hf2
      simp only [List.mem_flatMap, List.mem_map, List.mem_cons, List.not_mem_nil, or_false] at hmem
      obtain ⟨dr, hdr, dc, hdc, he⟩ := hmem
      subst he
      simp only [Bool.and_eq_true, decide_eq_true_eq] at hcond
      simp only [Prod.mk.injEq] at hf2
      obtain ⟨e1, e2⟩ := hf2
      rcases hdr with rfl | rfl | rfl <;> rcases hdc with rfl | rfl | rfl <;> omega
    · exact absurd hf (by simp)
  · intro hb
    refine ⟨(r - (seg.rowIdx : Int), c - (seg.colIdx : Int)), ?_, ?_⟩
    · simp only [List.mem_flatMap, List.mem_map, List.mem_cons, List.not_mem_nil, or_false]
      refine ⟨r - (seg.rowIdx : Int), by omega, c - (seg.colIdx : Int), by omega, rfl⟩
    · simp only []
      rw [if_pos (by simp only [Bool.and_eq_true, decide_eq_true_eq]; omega)]
      simp only [Option.some.injEq, Prod.mk.injEq]
      omega

theorem fillLoop_single (env : Env) (meta : MosaicMetadata) (orig q : Buffer) (seg : Segment)
    (cur : Buffer) (db : DB) (neigh : List Segment)
    (hfilled : meta.filled = false) (hneigh : getNeighbours db meta seg = .ok neigh) :
    (fillLoop env meta orig q [seg] cur db).2.1 =
      upsertSegments db
        ((neigh.map (fun s => if s.filled then s else { s with fillable := true })) ++
          [{ seg with filled := true, fillable := false }]) := by
  unfold fillLoop
  simp only [hfilled, Bool.false_eq_true, if_false]
  rw [hneigh]
  rfl

theorem fillLoop_filled (env : Env) (meta : MosaicMetadata) (orig q : Buffer)
    (hf : meta.filled = true) :
    ∀ (l : List Segment) (cur : Buffer) (db : DB),
      (fillLoop env meta orig q l cur db).2 = (db, none) := by
  intro l
  induction l with
  | nil => intro cur db; rfl
  | cons seg rest ih =>
    intro cur db
    unfold fillLoop
    simp only []
    rw [if_pos hf]
    exact ih _ db

theorem fillSegments_segments (env : Env) (fuel : Nat) (db : DB) (m : Nat) (queryBytes : Bytes)
    (segs : List Segment) (orig cur : ImagePixels) (meta : MosaicMetadata)
    (hnsfw : nsfwRejects env (env.centerCropImg env.cfgSegRatioW env.cfgSegRatioH
      (env.convertRGB (env.decode queryBytes))) = false)
    (horig : readImagePixels db m IMAGE_PIXELS_CATEGORY_ORIGINAL = .ok orig)
    (hcur : readImagePixels db m IMAGE_PIXELS_CATEGORY_CURRENT = .ok cur)
    (hmeta : readMosaicMetadata db m = .ok meta) :
    ((fillSegments env fuel db m queryBytes segs).1).segments =
      ((fillLoop env meta orig.pixelArray
          (env.centerCropImg env.cfgSegRatioW env.cfgSegRatioH (env.convertRGB (env.decode queryBytes)))
          segs cur.pixelArray db).2.1).segments := by
  unfold fillSegments
  simp only []
  split
  · rename_i h
    rw [hnsfw] at h
    exact absurd h (by simp)
  · split
    · rename_i A e heq
      rw [horig] at heq
      exact absurd heq (by simp)
    · rename_i A orig2 heq
      rw [horig] at heq
      injection heq with h2
      subst h2
      split
      · rename_i B e heq2
        rw [hcur] at heq2
        exact absurd heq2 (by simp)
      · rename_i B cur2 heq2
        rw [hcur] at heq2
        injection heq2 with h3
        subst h3
        split
        · rename_i C e heq3
          rw [hmeta] at heq3
          exact absurd heq3 (by simp)
        · rename_i C meta2 heq3
          rw [hmeta] at heq3
          injection heq3 with h4
          subst h4
          split
          · rename_i D fst db1 e heqF
            rw [heqF]
          · rename_i D curF db1 heqF
            split
            · rw [heqF]
              rfl
            · rw [heqF]
              rfl
            · split
              · rw [handleMosaicEnd_eq, segments_updateMosaicMetadata, heqF]
                rfl
              · rw [heqF]
                rfl

theorem fillSegments_filled_pixels (env : Env) (fuel : Nat) (db : DB) (m : Nat)
    (queryBytes : Bytes) (segs : List Segment) (orig cur : ImagePixels) (meta : MosaicMetadata)
    (hnsfw : nsfwRejects env (env.centerCropImg env.cfgSegRatioW env.cfgSegRatioH
      (env.convertRGB (env.decode queryBytes))) = false)
    (horig : readImagePixels db m IMAGE_PIXELS_CATEGORY_ORIGINAL = .ok orig)
    (hcur : readImagePixels db m IMAGE_PIXELS_CATEGORY_CURRENT = .ok cur)
    (hmeta : readMosaicMetadata db m = .ok meta)
    (hfilled : meta.filled = true) :
    ∃ buf, ((fillSegments env fuel db m queryBytes segs).1).pixels =
      pixUpsertList db.pixels ⟨m, IMAGE_PIXELS_CATEGORY_CURRENT, buf⟩ := by
  have hloop := fillLoop_filled env meta orig.pixelArray
    (env.centerCropImg env.cfgSegRatioW env.cfgSegRatioH (env.convertRGB (env.decode queryBytes)))
    hfilled segs cur.pixelArray db
  unfold fillSegments
  simp only []
  split
  · rename_i h
    rw [hnsfw] at h
    exact absurd h (by simp)
  · split
    · rename_i A e heq
      rw [horig] at heq
      exact absurd heq (by simp)
    · rename_i A orig2 heq
      rw [horig] at heq
      injection heq with h2
      subst h2
      split
      · rename_i B e heq2
        rw [hcur] at heq2
        exact absurd heq2 (by simp)
      · rename_i B cur2 heq2
        rw [hcur] at heq2
        injection heq2 with h3
        subst h3
        split
        · rename_i C e heq3
          rw [hmeta] at heq3
          exact absurd heq3 (by simp)
        · rename_i C meta2 heq3
          rw [hmeta] at heq3
          injection heq3 with h4
          subst h4
          split
          · rename_i D fst db1 e heqF
            rw [heqF] at hloop
            exact absurd (congrArg Prod.snd hloop) (by simp)
          · rename_i D curF db1 heqF
            rw [heqF] at hloop
            have hdb1 : db1 = db := congrArg Prod.fst hloop
            subst hdb1
            split
            · exact ⟨curF, rfl⟩
            · exact ⟨curF, rfl⟩
            · split
              · rw [handleMosaicEnd_eq]
                simp only [pixels_updateMosaicMetadata]
                exact ⟨curF, rfl⟩
              · exact ⟨curF, rfl⟩

/-- C4: filling one segment of a mosaic.  The service fill of segment id
`seg.id` runs the per-segment loop on exactly `[seg]`; the in-bounds
3-by-3 window of `_get_neighbours` is exactly the cells at row and column
offsets within 1, clipped to the grid; when the mosaic metadata is not
`filled`, after the operation the target row is `filled = true,
fillable = false`, every neighbouring row that was not already filled is
`fillable = true`, and every already-filled neighbouring row is
unchanged; when the metadata is already `filled`, the segment rows are
untouched and only the mosaic's CURRENT entry of the pixel store is
replaced. -/
theorem c4_fill_marks_target_and_neighbours (env : Env) (fuel : Nat) (db : DB) (m : Nat)
    (queryBytes : Bytes) (seg : Segment) (orig cur : ImagePixels) (meta : MosaicMetadata)
    (neigh : List Segment)
    (hnsfw : nsfwRejects env (env.centerCropImg env.cfgSegRatioW env.cfgSegRatioH
      (env.convertRGB (env.decode queryBytes))) = false)
    (horig : readImagePixels db m IMAGE_PIXELS_CATEGORY_ORIGINAL = .ok orig)
    (hcur : readImagePixels db m IMAGE_PIXELS_CATEGORY_CURRENT = .ok cur)
    (hmeta : readMosaicMetadata db m = .ok meta)
    (hN : (db.segments.map Segment.id).Nodup)
    (hseg : seg ∈ db.segments) :
    (fillSegmentService env fuel db m seg.id queryBytes =
       fillSegments env fuel db m queryBytes [seg]) ∧
    (∀ r c : Int, (r, c) ∈ neighCells meta seg ↔
      ((seg.rowIdx : Int) - 1 ≤ r ∧ r ≤ (seg.rowIdx : Int) + 1 ∧
       (seg.colIdx : Int) - 1 ≤ c ∧ c ≤ (seg.colIdx : Int) + 1 ∧
       0 ≤ r ∧ r < (meta.nRows : Int) ∧ 0 ≤ c ∧ c < (meta.nCols : Int))) ∧
    (meta.filled = false → getNeighbours db meta seg = .ok neigh →
      (List.Forall₂ (fun rc u => cellSeg db m rc.1 rc.2 = some u) (neighCells meta seg) neigh ∧
       { seg with filled := true, fillable := false } ∈
         ((fillSegments env fuel db m queryBytes [seg]).1).segments ∧
       (∀ t ∈ ((fillSegments env fuel db m queryBytes [seg]).1).segments,
          t.id = seg.id → t = { seg with filled := true, fillable := false }) ∧
       (∀ u ∈ neigh, u.id ≠ seg.id →
          (u.filled = false →
            { u with fillable := true } ∈
              ((fillSegments env fuel db m queryBytes [seg]).1).segments ∧
            ∀ t ∈ ((fillSegments env fuel db m queryBytes [seg]).1).segments,
              t.id = u.id → t = { u with fillable := true }) ∧
          (u.filled = true →
            u ∈ ((fillSegments env fuel db m queryBytes [seg]).1).segments ∧
            ∀ t ∈ ((fillSegments env fuel db m queryBytes [seg]).1).segments,
              t.id = u.id → t = u)))) ∧
    (meta.filled = true →
      ((fillSegments env fuel db m queryBytes [seg]).1).segments = db.segments ∧
      (∀ p ∈ db.pixels, p.mosaicId ≠ m ∨ p.category ≠ IMAGE_PIXELS_CATEGORY_CURRENT →
        p ∈ ((fillSegments env fuel db m queryBytes [seg]).1).pixels) ∧
      (∀ p ∈ ((fillSegments env fuel db m queryBytes [seg]).1).pixels,
        p ∈ db.pixels ∨ (p.mosaicId = m ∧ p.category = IMAGE_PIXELS_CATEGORY_CURRENT))) := by
  refine ⟨?_, fun r c => mem_neighCells meta seg r c, ?_, ?_⟩
  · unfold fillSegmentService
    rw [getSegments_id_single hN hseg]
  · intro hfilled hneigh
    have hmid : meta.id = m := readMosaicMetadata_id hmeta
    have hneigh2 : collectCells db m (neighCells meta seg) = .ok neigh := by
      unfold getNeighbours at hneigh
      rw [hmid] at hneigh
      exact hneigh
    have hforall2 := collectCells_forall2 hneigh2
    have hmemdb : ∀ u ∈ neigh, u ∈ db.segments := collectCells_mem hneigh2
    have hsegs : ((fillSegments env fuel db m queryBytes [seg]).1).segments =
        ((neigh.map (fun s : Segment => if s.filled then s else { s with fillable := true })) ++
          [{ seg with filled := true, fillable := false }]).foldl segUpsertList db.segments := by
      rw [fillSegments_segments env fuel db m queryBytes [seg] orig cur meta hnsfw horig hcur hmeta,
        fillLoop_single env meta orig.pixelArray _ seg cur.pixelArray db neigh hfilled hneigh,
        segments_upsertSegments]
    have hpwId : neigh.Pairwise (fun a b => a.id ≠ b.id) := by
      have hpwT : neigh.Pairwise (fun a b => ¬(a.rowIdx = b.rowIdx ∧ a.colIdx = b.colIdx)) := by
        refine forall2_pairwise ?_ hforall2 (neighCells_nodup meta seg)
        intro a b a2 b2 h1 h2 hne hco
        obtain ⟨_, _, hr1, hc1⟩ := cellSeg_coords h1
        obtain ⟨_, _, hr2, hc2⟩ := cellSeg_coords h2
        apply hne
        have e1 : a.1 = a2.1 := by rw [← hr1, ← hr2, hco.1]
        have e2 : a.2 = a2.2 := by rw [← hc1, ← hc2, hco.2]
        exact Prod.ext_iff.mpr ⟨e1, e2⟩
      refine List.Pairwise.imp_of_mem ?_ hpwT
      intro a b ha hb hT hid
      have hab := nodup_map_id_inj hN (hmemdb a ha) (hmemdb b hb) hid
      exact hT ⟨by rw [hab], by rw [hab]⟩
    have htgt := foldl_segUpsert_lastWins
      (neigh.map (fun s : Segment => if s.filled then s else { s with fillable := true }))
      { seg with filled := true, fillable := false } [] db.segments
      (fun v hv => absurd hv (List.not_mem_nil v))
    refine ⟨hforall2, ?_, ?_, ?_⟩
    · rw [hsegs]
      exact htgt.1
    · rw [hsegs]
      exact htgt.2
    · intro u hu hne
      obtain ⟨n1, n2, hsplit⟩ := List.append_of_mem hu
      have hLrw : ((neigh.map (fun s : Segment => if s.filled then s else { s with fillable := true })) ++
            [{ seg with filled := true, fillable := false }]) =
          (n1.map (fun s : Segment => if s.filled then s else { s with fillable := true })) ++
            (if u.filled then u else { u with fillable := true }) ::
              ((n2.map (fun s : Segment => if s.filled then s else { s with fillable := true })) ++
                [{ seg with filled := true, fillable := false }]) := by
        rw [hsplit]
        simp [List.map_append, List.map_cons, List.cons_append, List.append_assoc]
      have hL2 : ∀ v ∈ (n2.map (fun s : Segment => if s.filled then s else { s with fillable := true })) ++
            [{ seg with filled := true, fillable := false }],
          v.id ≠ ((if u.filled then u else { u with fillable := true }) : Segment).id := by
        intro v hv
        rw [markFillable_id]
        rcases List.mem_append.mp hv with hv1 | hv2
        · rcases List.mem_map.mp hv1 with ⟨w, hw, he⟩
          rw [← he, markFillable_id]
          have hsub : (u :: n2).Sublist neigh := by
            rw [hsplit]
            exact List.sublist_append_right n1 (u :: n2)
          have hpw2 := List.pairwise_cons.mp (hpwId.sublist hsub)
          exact fun hcontra => (hpw2.1 w hw) hcontra.symm
        · have hvs : v = { seg with filled := true, fillable := false } := by simpa using hv2
          rw [hvs]
          exact fun hcontra => hne hcontra.symm
      have hnb := foldl_segUpsert_lastWins
        (n1.map (fun s : Segment => if s.filled then s else { s with fillable := true }))
        (if u.filled then u else { u with fillable := true })
        ((n2.map (fun s : Segment => if s.filled then s else { s with fillable := true })) ++
          [{ seg with filled := true, fillable := false }])
        db.segments hL2
      rw [← hLrw] at hnb
      constructor
      · intro hufill
        have hfu : ((if u.filled then u else { u with fillable := true }) : Segment) =
            { u with fillable := true } := by
          simp only [hufill, Bool.false_eq_true, if_false]
        rw [hfu] at hnb
        refine ⟨by rw [hsegs]; exact hnb.1, ?_⟩
        rw [hsegs]
        intro t ht hid
        exact hnb.2 t ht hid
      · intro hufill
        have hfu : ((if u.filled then u else { u with fillable := true }) : Segment) = u := by
          rw [if_pos hufill]
        rw [hfu] at hnb
        exact ⟨by rw [hsegs]; exact hnb.1, by rw [hsegs]; exact hnb.2⟩
  · intro hfilled
    refine ⟨?_, ?_, ?_⟩
    · rw [fillSegments_segments env fuel db m queryBytes [seg] orig cur meta hnsfw horig hcur hmeta]
      have hloop := fillLoop_filled env meta orig.pixelArray
        (env.centerCropImg env.cfgSegRatioW env.cfgSegRatioH (env.convertRGB (env.decode queryBytes)))
        hfilled [seg] cur.pixelArray db
      have h21 : (fillLoop env meta orig.pixelArray
          (env.centerCropImg env.cfgSegRatioW env.cfgSegRatioH (env.convertRGB (env.decode queryBytes)))
          [seg] cur.pixelArray db).2.1 = db := by
        rw [hloop]
      rw [h21]
    · obtain ⟨buf, hpix⟩ := fillSegments_filled_pixels env fuel db m queryBytes [seg] orig cur meta
        hnsfw horig hcur hmeta hfilled
      intro p hp hne
      rw [hpix]
      exact pixUpsertList_keep hp hne
    · obtain ⟨buf, hpix⟩ := fillSegments_filled_pixels env fuel db m queryBytes [seg] orig cur meta
        hnsfw horig hcur hmeta hfilled
      intro p hp
      rw [hpix] at hp
      rcases mem_pixUpsertList hp with rfl | h2
      · exact Or.inr ⟨rfl, rfl⟩
      · exact Or.inl h2

/-- The metadata row of mosaic 1 in `dbC3`. -/
def metaC4 : MosaicMetadata :=
  { id := 1, idx := 1, active := true, filled := false, original := true,
    segmentWidth := 1, segmentHeight := 1, nRows := 2, nCols := 3,
    spaceTop := 0, spaceLeft := 0, mosaicConfig := cfg12 }

/-- The segment of mosaic 1 at cell (0, 1) in `dbC3`. -/
def segC4 : Segment :=
  { id := 12, mosaicId := 1, rowIdx := 0, colIdx := 1, xMin := 1, xMax := 2, yMin := 0, yMax := 1,
    brightness := 2, fillable := false, filled := false, isStartSegment := false, randomSortKey := 1 }

/-- The six in-bounds window cells of `segC4` in `dbC3`, in visit order. -/
def neighC4 : List Segment :=
  [{ id := 11, mosaicId := 1, rowIdx := 0, colIdx := 0, xMin := 0, xMax := 1, yMin := 0, yMax := 1,
     brightness := 2, fillable := true, filled := false, isStartSegment := true, randomSortKey := 0 },
   { id := 12, mosaicId := 1, rowIdx := 0, colIdx := 1, xMin := 1, xMax := 2, yMin := 0, yMax := 1,
     brightness := 2, fillable := false, filled := false, isStartSegment := false, randomSortKey := 1 },
   { id := 13, mosaicId := 1, rowIdx := 0, colIdx := 2, xMin := 2, xMax := 3, yMin := 0, yMax := 1,
     brightness := 2, fillable := false, filled := false, isStartSegment := false, randomSortKey := 2 },
   { id := 14, mosaicId := 1, rowIdx := 1, colIdx := 0, xMin := 0, xMax := 1, yMin := 1, yMax := 2,
     brightness := 2, fillable := false, filled := false, isStartSegment := false, randomSortKey := 3 },
   { id := 15, mosaicId := 1, rowIdx := 1, colIdx := 1, xMin := 1, xMax := 2, yMin := 1, yMax := 2,
     brightness := 2, fillable := false, filled := false, isStartSegment := false, randomSortKey := 4 },
   { id := 16, mosaicId := 1, rowIdx := 1, colIdx := 2, xMin := 2, xMax := 3, yMin := 1, yMax := 2,
     brightness := 2, fillable := false, filled := false, isStartSegment := false, randomSortKey := 5 }]

/-- Witness for C4 at the concrete store `dbC3`: filling segment 12 of the
unfilled mosaic 1 marks it FILLED and not FILLABLE, and it is the unique
row with that id afterwards. -/
theorem c4_fill_marks_target_and_neighbours_witness :
    readMosaicMetadata dbC3 1 = .ok metaC4 ∧
    getNeighbours dbC3 metaC4 segC4 = .ok neighC4 ∧
    metaC4.filled = false ∧
    segC4 ∈ dbC3.segments ∧
    ({ segC4 with filled := true, fillable := false } ∈
       ((fillSegments unitEnv 30 dbC3 1 77 [segC4]).1).segments ∧
     ∀ t ∈ ((fillSegments unitEnv 30 dbC3 1 77 [segC4]).1).segments,
       t.id = segC4.id → t = { segC4 with filled := true, fillable := false }) := by
  have H := (c4_fill_marks_target_and_neighbours unitEnv 30 dbC3 1 77 segC4
    ⟨1, 0, [[1, 2, 3], [4, 5, 6]]⟩ ⟨1, 1, [[0, 0, 0], [0, 0, 0]]⟩ metaC4 neighC4
    rfl rfl rfl rfl (by decide) (by decide)).2.2.1 rfl rfl
  exact ⟨rfl, rfl, rfl, by decide, H.2.1, H.2.2.1⟩

/- C9 helper lemmas: store algebra for the reset path. -/

theorem rawImages_updateMosaicMetadata (db : DB) (meta : MosaicMetadata) :
    (updateMosaicMetadata db meta).rawImages = db.rawImages := by
  unfold updateMosaicMetadata
  split <;> rfl

theorem nextUuid_updateMosaicMetadata (db : DB) (meta : MosaicMetadata) :
    (updateMosaicMetadata db meta).nextUuid = db.nextUuid := by
  unfold updateMosaicMetadata
  split <;> rfl

theorem find?_map_pred {α : Type} (f : α → α) (p : α → Bool) :
    ∀ (l : List α), (∀ a ∈ l, p (f a) = p a) →
      (l.map f).find? p = (l.find? p).map f := by
  intro l
  induction l with
  | nil => intro _; rfl
  | cons x xs ih =>
    intro h
    simp only [List.map_cons, List.find?_cons]
    rw [h x (List.mem_cons_self x xs)]
    rcases hx : p x with _ | _
    · exact ih (fun a ha => h a (List.mem_cons_of_mem x ha))
    · rfl

theorem find?_append_none {α : Type} (p : α → Bool) :
    ∀ (l1 l2 : List α), l1.find? p = none → (l1 ++ l2).find? p = l2.find? p := by
  intro l1
  induction l1 with
  | nil => intro l2 _; rfl
  | cons x xs ih =>
    intro l2 h
    simp only [List.find?_cons] at h ⊢
    rcases hx : p x with _ | _
    · rw [hx] at h
      simp only [List.cons_append]
      rw [List.find?_cons, hx]
      exact ih l2 h
    · rw [hx] at h
      exact absurd h (by simp)

theorem updateMosaicMetadata_stable {db2 db : DB} {nm : MosaicMetadata}
    (h : db2.mosaics = (updateMosaicMetadata db nm).mosaics) :
    updateMosaicMetadata db2 nm = db2 := by
  unfold updateMosaicMetadata at h ⊢
  split at h
  · rename_i hany
    rcases List.any_eq_true.mp hany with ⟨r0, hr0, hid0⟩
    rw [if_pos ?_]
    · have hmap : db2.mosaics.map (fun r => if r.id == nm.id then nm else r) = db2.mosaics := by
        rw [h]
        rw [List.map_map]
        have : ∀ r ∈ db.mosaics,
            ((fun r => if r.id == nm.id then nm else r) ∘ (fun r => if r.id == nm.id then nm else r)) r =
              (fun r => if r.id == nm.id then nm else r) r := by
          intro r _
          simp only [Function.comp]
          by_cases hr : (r.id == nm.id) = true
          · rw [if_pos hr, if_pos (by simp)]
          · rw [if_neg hr, if_neg hr]
        rw [List.map_congr_left this]
      rw [hmap]
    · rw [h]
      refine List.any_eq_true.mpr ⟨nm, ?_, by simp⟩
      exact List.mem_map.mpr ⟨r0, hr0, by rw [if_pos hid0]⟩
  · rename_i hany
    have hall := List.any_eq_false.mp (Bool.not_eq_true _ ▸ hany)
    rw [if_pos ?_]
    · have hmap : db2.mosaics.map (fun r => if r.id == nm.id then nm else r) = db2.mosaics := by
        rw [h, List.map_append]
        have h1 : db.mosaics.map (fun r => if r.id == nm.id then nm else r) = db.mosaics := by
          have hpt : ∀ r ∈ db.mosaics, (if r.id == nm.id then nm else r) = r := by
            intro r hr
            exact if_neg (hall r hr)
          calc db.mosaics.map (fun r => if r.id == nm.id then nm else r)
              = db.mosaics.map (fun r => r) := List.map_congr_left hpt
            _ = db.mosaics := by simp
        rw [h1]
        simp
      rw [hmap]
    · rw [h]
      exact List.any_eq_true.mpr ⟨nm, List.mem_append.mpr (Or.inr (by simp)), by simp⟩

theorem readMosaicMetadata_update_same {db : DB} {m : Nat} {nm : MosaicMetadata}
    (hid : nm.id = m) {mR : MosaicMetadata} (h : readMosaicMetadata db m = .ok mR) :
    readMosaicMetadata (updateMosaicMetadata db nm) m = .ok nm := by
  unfold readMosaicMetadata at h ⊢
  rcases hf : db.mosaics.find? (fun r => r.id == m) with _ | r0
  · rw [hf] at h
    exact absurd h (by simp)
  · have hr0 : (r0.id == m) = true := by
      have := List.find?_some hf
      simpa using this
    have hpred : ∀ a ∈ db.mosaics,
        ((if a.id == nm.id then nm else a).id == m) = (a.id == m) := by
      intro a _
      by_cases ha : (a.id == nm.id) = true
      · rw [if_pos ha]
        have h1 : a.id = nm.id := by simpa using ha
        simp [h1, hid]
      · rw [if_neg ha]
    have hcond : (r0.id == nm.id) = true := by simp_all
    unfold updateMosaicMetadata
    rw [if_pos (List.any_eq_true.mpr ⟨r0, List.mem_of_find?_eq_some hf, hcond⟩)]
    simp only []
    rw [find?_map_pred _ _ _ hpred, hf]
    simp [hcond]
    intro hc
    exact absurd (by simpa using hcond) hc

theorem find?_append_left {α : Type} (p : α → Bool) :
    ∀ (l1 l2 : List α) {a : α}, l1.find? p = some a → (l1 ++ l2).find? p = some a := by
  intro l1
  induction l1 with
  | nil => intro l2 a h; exact absurd h (by simp)
  | cons x xs ih =>
    intro l2 a h
    simp only [List.find?_cons] at h
    simp only [List.cons_append, List.find?_cons]
    rcases hx : p x with _ | _
    · rw [hx] at h
      exact ih l2 h
    · rw [hx] at h
      exact h

theorem find?_pixUpsertList_same (l : List ImagePixels) (mm cat : Nat) (arr : Buffer) :
    (pixUpsertList l ⟨mm, cat, arr⟩).find? (fun q => q.mosaicId == mm && q.category == cat) =
      some ⟨mm, cat, arr⟩ := by
  unfold pixUpsertList
  split
  · rename_i hany
    rcases List.any_eq_true.mp hany with ⟨q0, hq0, hkey⟩
    have hpred : ∀ a ∈ l,
        (((if a.mosaicId == mm && a.category == cat then (⟨mm, cat, arr⟩ : ImagePixels) else a)).mosaicId == mm &&
         ((if a.mosaicId == mm && a.category == cat then (⟨mm, cat, arr⟩ : ImagePixels) else a)).category == cat) =
        (a.mosaicId == mm && a.category == cat) := by
      intro a _
      by_cases ha : (a.mosaicId == mm && a.category == cat) = true
      · rw [if_pos ha, ha]
        simp
      · rw [if_neg ha]
    rw [find?_map_pred _ _ _ hpred]
    rcases hfind : l.find? (fun q => q.mosaicId == mm && q.category == cat) with _ | q1
    · rw [List.find?_eq_none] at hfind
      exact absurd hkey (hfind q0 hq0)
    · have hq1 : (q1.mosaicId == mm && q1.category == cat) = true := by
        have := List.find?_some hfind
        simpa using this
      rw [hfind]
      show some (if q1.mosaicId == mm && q1.category == cat then (⟨mm, cat, arr⟩ : ImagePixels) else q1) =
        some ⟨mm, cat, arr⟩
      rw [if_pos hq1]
  · rename_i hany
    have hall := List.any_eq_false.mp (Bool.not_eq_true _ ▸ hany)
    rw [find?_append_none]
    · simp
    · rw [List.find?_eq_none]
      intro a ha
      exact fun hc => absurd hc (by simpa using hall a ha)

theorem find?_pixUpsertList_other (l : List ImagePixels) (mm cat : Nat) (arr : Buffer)
    (m2 c2 : Nat) (h : ¬(m2 = mm ∧ c2 = cat)) :
    (pixUpsertList l ⟨mm, cat, arr⟩).find? (fun q => q.mosaicId == m2 && q.category == c2) =
      l.find? (fun q => q.mosaicId == m2 && q.category == c2) := by
  unfold pixUpsertList
  split
  · have hpred : ∀ a ∈ l,
        (((if a.mosaicId == mm && a.category == cat then (⟨mm, cat, arr⟩ : ImagePixels) else a)).mosaicId == m2 &&
         ((if a.mosaicId == mm && a.category == cat then (⟨mm, cat, arr⟩ : ImagePixels) else a)).category == c2) =
        (a.mosaicId == m2 && a.category == c2) := by
      intro a _
      by_cases ha : (a.mosaicId == mm && a.category == cat) = true
      · rw [if_pos ha]
        simp only [Bool.and_eq_true, beq_iff_eq] at ha
        simp [ha.1, ha.2]
      · rw [if_neg ha]
    rw [find?_map_pred _ _ _ hpred]
    rcases hfind : l.find? (fun q => q.mosaicId == m2 && q.category == c2) with _ | q1
    · rw [hfind]
      rfl
    · have hq1 : (q1.mosaicId == m2 && q1.category == c2) = true := by
        have := List.find?_some hfind
        simpa using this
      have hnk : (q1.mosaicId == mm && q1.category == cat) = false := by
        simp only [Bool.and_eq_true, beq_iff_eq] at hq1
        rcases hc : (q1.mosaicId == mm && q1.category == cat) with _ | _
        · rfl
        · exfalso
          simp only [Bool.and_eq_true, beq_iff_eq] at hc
          exact h ⟨by rw [← hq1.1, hc.1], by rw [← hq1.2, hc.2]⟩
      rw [hfind]
      show some (if q1.mosaicId == mm && q1.category == cat then (⟨mm, cat, arr⟩ : ImagePixels) else q1) =
        some q1
      rw [hnk]
      simp
  · rcases hfind : l.find? (fun q => q.mosaicId == m2 && q.category == c2) with _ | q1
    · rw [find?_append_none _ l _ hfind, hfind]
      simp only [List.find?_cons]
      have hkf : ((⟨mm, cat, arr⟩ : ImagePixels).mosaicId == m2 &&
          (⟨mm, cat, arr⟩ : ImagePixels).category == c2) = false := by
        rcases hc : ((mm == m2) && (cat == c2)) with _ | _
        · rfl
        · exfalso
          simp only [Bool.and_eq_true, beq_iff_eq] at hc
          exact h ⟨hc.1.symm, hc.2.symm⟩
      rw [hkf]
      rfl
    · rw [find?_append_left _ l _ hfind, hfind]

theorem pixUpsertList_stable {l : List ImagePixels} {p : ImagePixels}
    (hhas : (l.any fun q => q.mosaicId == p.mosaicId && q.category == p.category) = true)
    (hall : ∀ q ∈ l, (q.mosaicId == p.mosaicId && q.category == p.category) = true → q = p) :
    pixUpsertList l p = l := by
  unfold pixUpsertList
  rw [if_pos hhas]
  calc l.map (fun q => if q.mosaicId == p.mosaicId && q.category == p.category then p else q)
      = l.map (fun q => q) := by
        refine List.map_congr_left ?_
        intro q hq
        by_cases hc : (q.mosaicId == p.mosaicId && q.category == p.category) = true
        · rw [if_pos hc]
          exact (hall q hq hc).symm
        · rw [if_neg hc]
    _ = l := by simp

theorem pixUpsertList_after (l : List ImagePixels) (p : ImagePixels) :
    ((pixUpsertList l p).any fun q => q.mosaicId == p.mosaicId && q.category == p.category) = true ∧
    (∀ q ∈ pixUpsertList l p,
      (q.mosaicId == p.mosaicId && q.category == p.category) = true → q = p) := by
  constructor
  · unfold pixUpsertList
    split
    · rename_i hany
      rcases List.any_eq_true.mp hany with ⟨q0, hq0, hk⟩
      refine List.any_eq_true.mpr ⟨p, ?_, by simp⟩
      exact List.mem_map.mpr ⟨q0, hq0, by rw [if_pos hk]⟩
    · exact List.any_eq_true.mpr ⟨p, List.mem_append.mpr (Or.inr (by simp)), by simp⟩
  · intro q hq hk
    unfold pixUpsertList at hq
    split at hq
    · rcases List.mem_map.mp hq with ⟨u, hu, he⟩
      by_cases hc : (u.mosaicId == p.mosaicId && u.category == p.category) = true
      · rw [if_pos hc] at he
        exact he.symm
      · rw [if_neg hc] at he
        rw [← he] at hk
        exact absurd hk hc
    · rcases List.mem_append.mp hq with h1 | h2
      · rename_i hany
        have hall := List.any_eq_false.mp (Bool.not_eq_true _ ▸ hany)
        exact absurd hk (by simpa using hall q h1)
      · simpa using h2

theorem pixUpsertList_idem (l : List ImagePixels) (p : ImagePixels) :
    pixUpsertList (pixUpsertList l p) p = pixUpsertList l p :=
  pixUpsertList_stable (pixUpsertList_after l p).1 (pixUpsertList_after l p).2

theorem mem_rawUpsertList {t s : RawImage} {l : List RawImage} (h : t ∈ rawUpsertList l s) :
    t = s ∨ t ∈ l := by
  unfold rawUpsertList at h
  split at h
  · rcases List.mem_map.mp h with ⟨u, hu, he⟩
    by_cases hc : (u.mosaicId == s.mosaicId && u.category == s.category) = true
    · rw [if_pos hc] at he
      exact Or.inl he.symm
    · rw [if_neg hc] at he
      exact Or.inr (he ▸ hu)
  · rcases List.mem_append.mp h with h1 | h2
    · exact Or.inr h1
    · exact Or.inl (by simpa using h2)

theorem rawUpsertList_keep {l : List RawImage} {s p : RawImage}
    (hp : p ∈ l) (hne : (p.mosaicId == s.mosaicId && p.category == s.category) = false) :
    p ∈ rawUpsertList l s := by
  unfold rawUpsertList
  split
  · refine List.mem_map.mpr ⟨p, hp, ?_⟩
    rw [if_neg (by simp [hne])]
  · exact List.mem_append.mpr (Or.inl hp)

theorem rawUpsertList_stable {l : List RawImage} {p : RawImage}
    (hhas : (l.any fun q => q.mosaicId == p.mosaicId && q.category == p.category) = true)
    (hall : ∀ q ∈ l, (q.mosaicId == p.mosaicId && q.category == p.category) = true → q = p) :
    rawUpsertList l p = l := by
  unfold rawUpsertList
  rw [if_pos hhas]
  calc l.map (fun q => if q.mosaicId == p.mosaicId && q.category == p.category then p else q)
      = l.map (fun q => q) := by
        refine List.map_congr_left ?_
        intro q hq
        by_cases hc : (q.mosaicId == p.mosaicId && q.category == p.category) = true
        · rw [if_pos hc]
          exact (hall q hq hc).symm
        · rw [if_neg hc]
    _ = l := by simp

theorem rawUpsertList_after (l : List RawImage) (p : RawImage) :
    ((rawUpsertList l p).any fun q => q.mosaicId == p.mosaicId && q.category == p.category) = true ∧
    (∀ q ∈ rawUpsertList l p,
      (q.mosaicId == p.mosaicId && q.category == p.category) = true → q = p) := by
  constructor
  · unfold rawUpsertList
    split
    · rename_i hany
      rcases List.any_eq_true.mp hany with ⟨q0, hq0, hk⟩
      refine List.any_eq_true.mpr ⟨p, ?_, by simp⟩
      exact List.mem_map.mpr ⟨q0, hq0, by rw [if_pos hk]⟩
    · exact List.any_eq_true.mpr ⟨p, List.mem_append.mpr (Or.inr (by simp)), by simp⟩
  · intro q hq hk
    unfold rawUpsertList at hq
    split at hq
    · rcases List.mem_map.mp hq with ⟨u, hu, he⟩
      by_cases hc : (u.mosaicId == p.mosaicId && u.category == p.category) = true
      · rw [if_pos hc] at he
        exact he.symm
      · rw [if_neg hc] at he
        rw [← he] at hk
        exact absurd hk hc
    · rcases List.mem_append.mp hq with h1 | h2
      · rename_i hany
        have hall := List.any_eq_false.mp (Bool.not_eq_true _ ▸ hany)
        exact absurd hk (by simpa using hall q h1)
      · simpa using h2

theorem rawUpsertList_preserve {l : List RawImage} {p r : RawImage}
    (hne : (r.mosaicId == p.mosaicId && r.category == p.category) = false)
    (hhas : (l.any fun q => q.mosaicId == p.mosaicId && q.category == p.category) = true)
    (hall : ∀ q ∈ l, (q.mosaicId == p.mosaicId && q.category == p.category) = true → q = p) :
    ((rawUpsertList l r).any fun q => q.mosaicId == p.mosaicId && q.category == p.category) = true ∧
    (∀ q ∈ rawUpsertList l r,
      (q.mosaicId == p.mosaicId && q.category == p.category) = true → q = p) := by
  constructor
  · rcases List.any_eq_true.mp hhas with ⟨q0, hq0, hk⟩
    refine List.any_eq_true.mpr ⟨q0, ?_, hk⟩
    refine rawUpsertList_keep hq0 ?_
    have hq0p : q0 = p := hall q0 hq0 hk
    subst hq0p
    rcases hc : (q0.mosaicId == r.mosaicId && q0.category == r.category) with _ | _
    · rfl
    · exfalso
      simp only [Bool.and_eq_true, beq_iff_eq] at hc hk
      rw [← hc.1, ← hc.2] at hne
      simp at hne
  · intro q hq hk
    rcases mem_rawUpsertList hq with rfl | h2
    · exact absurd hk (by simp_all)
    · exact hall q h2 hk

theorem upsertSegments_eq_record :
    ∀ (L : List Segment) (db : DB),
      upsertSegments db L = { db with segments := L.foldl segUpsertList db.segments } := by
  intro L
  induction L with
  | nil => intro db; rfl
  | cons s L ih =>
    intro db
    unfold upsertSegments at ih ⊢
    simp only [List.foldl_cons]
    exact ih (upsertSegment db s)

theorem getSegments_noorder (db : DB) (q : SegQuery) :
    getSegments db q false (-1) = db.segments.filter (segMatches q) := by
  rfl

theorem mosaic2gif_congr (env : Env) (fuel : Nat) (db1 db2 : DB) (m a b : Nat)
    (h1 : db1.pixels = db2.pixels) (h2 : db1.segments = db2.segments) :
    mosaic2gif env fuel db1 m a b = mosaic2gif env fuel db2 m a b := by
  have e1 : readImagePixels db1 = readImagePixels db2 := by
    funext mm cat
    unfold readImagePixels
    rw [h1]
  have e2 : getSegments db1 = getSegments db2 := by
    funext qq ro lim
    unfold getSegments
    rw [h2]
  unfold mosaic2gif
  rw [e1, e2]

theorem seg_reset_self {t : Segment} (h1 : t.filled = false) (h2 : t.fillable = t.isStartSegment) :
    ({ t with filled := false, fillable := t.isStartSegment } : Segment) = t := by
  obtain ⟨a1, a2, a3, a4, a5, a6, a7, a8, a9, fb, fd, st, rk⟩ := t
  simp only [] at h1 h2
  simp [h1, h2]

theorem segApply_id (L : List Segment) (t : Segment) :
    (L.foldl (fun acc v => if acc.id == v.id then v else acc) t).id = t.id := by
  induction L generalizing t with
  | nil => rfl
  | cons v L ih =>
    simp only [List.foldl_cons]
    by_cases hc : (t.id == v.id) = true
    · rw [if_pos hc]
      rw [ih v]
      have hc2 : t.id = v.id := by simpa using hc
      exact hc2.symm
    · rw [if_neg hc]
      exact ih t

theorem segApply_none {L : List Segment} {t : Segment} (h : ∀ v ∈ L, v.id ≠ t.id) :
    L.foldl (fun acc v => if acc.id == v.id then v else acc) t = t := by
  induction L with
  | nil => rfl
  | cons v L ih =>
    simp only [List.foldl_cons]
    rw [if_neg ?_]
    · exact ih (fun w hw => h w (List.mem_cons_of_mem v hw))
    · intro hc
      have hc2 : t.id = v.id := by simpa using hc
      exact h v (List.mem_cons_self v L) hc2.symm

theorem segApply_last (L1 : List Segment) (v : Segment) (L2 : List Segment) (t : Segment)
    (h1 : ∀ w ∈ L1, w.id ≠ t.id) (h2 : ∀ w ∈ L2, w.id ≠ t.id) (hv : v.id = t.id) :
    (L1 ++ v :: L2).foldl (fun acc v => if acc.id == v.id then v else acc) t = v := by
  rw [List.foldl_append]
  rw [segApply_none h1]
  simp only [List.foldl_cons]
  rw [if_pos (by simp [hv])]
  refine segApply_none ?_
  intro w hw
  rw [hv]
  exact h2 w hw

theorem segApply_cases (L : List Segment) (t : Segment) :
    L.foldl (fun acc v => if acc.id == v.id then v else acc) t = t ∨
    L.foldl (fun acc v => if acc.id == v.id then v else acc) t ∈ L := by
  induction L generalizing t with
  | nil => exact Or.inl rfl
  | cons v L ih =>
    simp only [List.foldl_cons]
    by_cases hc : (t.id == v.id) = true
    · rw [if_pos hc]
      rcases ih v with h | h
      · exact Or.inr (by rw [h]; exact List.mem_cons_self v L)
      · exact Or.inr (List.mem_cons_of_mem v h)
    · rw [if_neg hc]
      rcases ih t with h | h
      · exact Or.inl h
      · exact Or.inr (List.mem_cons_of_mem v h)

theorem segUpsertList_any_map {l : List Segment} {v : Segment}
    (h : (l.any fun t => t.id == v.id) = true) :
    segUpsertList l v = l.map (fun t => if t.id == v.id then v else t) := by
  unfold segUpsertList
  rw [if_pos h]

theorem foldl_segUpsert_eq_map :
    ∀ (L : List Segment) (l : List Segment),
      (∀ v ∈ L, (l.any fun t => t.id == v.id) = true) →
      L.foldl segUpsertList l =
        l.map (fun t => L.foldl (fun acc v => if acc.id == v.id then v else acc) t) := by
  intro L
  induction L with
  | nil =>
    intro l _
    simp
  | cons v L ih =>
    intro l h
    simp only [List.foldl_cons]
    rw [segUpsertList_any_map (h v (List.mem_cons_self v L))]
    rw [ih _ ?_]
    · rw [List.map_map]
      rfl
    · intro w hw
      rcases List.any_eq_true.mp (h w (List.mem_cons_of_mem v hw)) with ⟨t0, ht0, hk⟩
      refine List.any_eq_true.mpr ⟨(if t0.id == v.id then v else t0), List.mem_map_of_mem _ ht0, ?_⟩
      by_cases hc : (t0.id == v.id) = true
      · rw [if_pos hc]
        have e1 : t0.id = v.id := by simpa using hc
        have e2 : t0.id = w.id := by simpa using hk
        simp [← e1, e2]
      · rw [if_neg hc]
        exact hk

theorem resetMosaic_normal (env : Env) (fuel : Nat) (db : DB) (m : Nat)
    (meta : MosaicMetadata) (orig cur : ImagePixels)
    (hmeta : readMosaicMetadata db m = .ok meta)
    (horig : readImagePixels db m IMAGE_PIXELS_CATEGORY_ORIGINAL = .ok orig)
    (hcur : readImagePixels db m IMAGE_PIXELS_CATEGORY_CURRENT = .ok cur) :
    resetMosaic env fuel db m =
      (let bg := env.dimBrightness meta.mosaicConfig.mosaicBgBrightness orig.pixelArray
       let D : DB :=
         { mosaics := (updateMosaicMetadata db { meta with filled := false }).mosaics,
           segments :=
             (((db.segments.filter (segMatches { qmosaicId := some m })).map
                 (fun s : Segment => { s with filled := false, fillable := s.isStartSegment })).foldl
               segUpsertList db.segments),
           pixels := pixUpsertList db.pixels ⟨m, IMAGE_PIXELS_CATEGORY_CURRENT, bg⟩,
           rawImages :=
             rawUpsertList
               (rawUpsertList db.rawImages ⟨m, RAW_IMAGE_CURRENT_JPEG, env.encodeJpeg bg⟩)
               ⟨m, RAW_IMAGE_CURRENT_SMALL_JPEG, env.encodeJpeg (env.thumbnailImg env.cfgThumbSize bg)⟩,
           nextUuid := db.nextUuid }
       match mosaic2gif env fuel D m 5 5 with
       | .error e => (D, .exn e)
       | .ok none => (D, .hang)
       | .ok (some gif) => ({ D with rawImages := rawUpsertList D.rawImages gif }, .ok m)) := by
  unfold resetMosaic
  simp only []
  split
  · rename_i A e heq
    rw [hmeta] at heq
    exact absurd heq (by simp)
  · rename_i A meta2 heq
    rw [hmeta] at heq
    injection heq with h2
    subst h2
    split
    · rename_i B e heq2
      rw [horig] at heq2
      exact absurd heq2 (by simp)
    · rename_i B orig2 heq2
      rw [horig] at heq2
      injection heq2 with h3
      subst h3
      split
      · rename_i C e heq3
        rw [hcur] at heq3
        exact absurd heq3 (by simp)
      · rename_i C cur2 heq3
        rw [hcur] at heq3
        injection heq3 with h4
        subst h4
        simp only [upsertSegments_eq_record, upsertImagePixels, upsertRawImage,
          getSegments_noorder, pixels_updateMosaicMetadata, segments_updateMosaicMetadata,
          rawImages_updateMosaicMetadata, nextUuid_updateMosaicMetadata]

theorem segMatches_mosaicOnly (m : Nat) (t : Segment) :
    segMatches { qmosaicId := some m } t = (t.mosaicId == m) := by
  simp [segMatches]

theorem segApply_reset_point {l : List Segment} {m : Nat}
    (hN : (l.map Segment.id).Nodup) {t : Segment} (ht : t ∈ l) :
    (((l.filter (segMatches { qmosaicId := some m })).map
        (fun s : Segment => { s with filled := false, fillable := s.isStartSegment })).foldl
      (fun acc v => if acc.id == v.id then v else acc) t) =
      (if t.mosaicId == m then { t with filled := false, fillable := t.isStartSegment } else t) := by
  by_cases hm : (t.mosaicId == m) = true
  · rw [if_pos hm]
    have htf : t ∈ l.filter (segMatches { qmosaicId := some m }) :=
      List.mem_filter.mpr ⟨ht, by rw [segMatches_mosaicOnly]; exact hm⟩
    obtain ⟨s1, s2, hsplit⟩ := List.append_of_mem htf
    have hNf : ((l.filter (segMatches { qmosaicId := some m })).map Segment.id).Nodup :=
      List.Nodup.sublist (List.Sublist.map Segment.id (List.filter_sublist l)) hN
    rw [hsplit] at hNf
    rw [List.map_append, List.map_cons] at hNf
    have hmid := (List.nodup_cons.mp (List.nodup_middle.mp hNf)).1
    rw [hsplit, List.map_append, List.map_cons]
    refine segApply_last _ _ _ _ ?_ ?_ rfl
    · intro w hw
      rcases List.mem_map.mp hw with ⟨u, hu, he⟩
      rw [← he]
      intro hc
      have hc2 : u.id = t.id := hc
      exact hmid (by
        rw [← hc2]
        exact List.mem_append.mpr (Or.inl (List.mem_map_of_mem Segment.id hu)))
    · intro w hw
      rcases List.mem_map.mp hw with ⟨u, hu, he⟩
      rw [← he]
      intro hc
      have hc2 : u.id = t.id := hc
      exact hmid (by
        rw [← hc2]
        exact List.mem_append.mpr (Or.inr (List.mem_map_of_mem Segment.id hu)))
  · rw [if_neg hm]
    refine segApply_none ?_
    intro w hw
    rcases List.mem_map.mp hw with ⟨u, hu, he⟩
    rw [← he]
    intro hc
    have hu2 : u ∈ l := (List.mem_filter.mp hu).1
    have huT : u = t := nodup_map_id_inj hN hu2 ht hc
    subst huT
    have := (List.mem_filter.mp hu).2
    rw [segMatches_mosaicOnly] at this
    exact hm this

theorem segReset_props {l : List Segment} (m : Nat) (hN : (l.map Segment.id).Nodup) :
    (∀ s ∈ (((l.filter (segMatches { qmosaicId := some m })).map
        (fun s : Segment => { s with filled := false, fillable := s.isStartSegment })).foldl
      segUpsertList l),
      s.mosaicId = m → s.filled = false ∧ s.fillable = s.isStartSegment) ∧
    ((((l.filter (segMatches { qmosaicId := some m })).map
        (fun s : Segment => { s with filled := false, fillable := s.isStartSegment })).foldl
      segUpsertList l).map Segment.id = l.map Segment.id) := by
  have hany : ∀ v ∈ (l.filter (segMatches { qmosaicId := some m })).map
      (fun s : Segment => { s with filled := false, fillable := s.isStartSegment }),
      (l.any fun t => t.id == v.id) = true := by
    intro v hv
    rcases List.mem_map.mp hv with ⟨u, hu, he⟩
    refine List.any_eq_true.mpr ⟨u, (List.mem_filter.mp hu).1, ?_⟩
    rw [← he]
    simp
  have hmap := foldl_segUpsert_eq_map _ l hany
  constructor
  · intro s hs hsm
    rw [hmap] at hs
    rcases List.mem_map.mp hs with ⟨t, ht, he⟩
    rw [segApply_reset_point hN ht] at he
    by_cases hmt : (t.mosaicId == m) = true
    · rw [if_pos hmt] at he
      rw [← he]
      exact ⟨rfl, rfl⟩
    · rw [if_neg hmt] at he
      subst he
      exact absurd (by simp [hsm]) hmt
  · rw [hmap, List.map_map]
    refine List.map_congr_left ?_
    intro t _
    exact segApply_id _ t

theorem segReset_stable {l : List Segment} (m : Nat) (hN : (l.map Segment.id).Nodup)
    (hprops : ∀ s ∈ l, s.mosaicId = m → s.filled = false ∧ s.fillable = s.isStartSegment) :
    (((l.filter (segMatches { qmosaicId := some m })).map
        (fun s : Segment => { s with filled := false, fillable := s.isStartSegment })).foldl
      segUpsertList l) = l := by
  have hany : ∀ v ∈ (l.filter (segMatches { qmosaicId := some m })).map
      (fun s : Segment => { s with filled := false, fillable := s.isStartSegment }),
      (l.any fun t => t.id == v.id) = true := by
    intro v hv
    rcases List.mem_map.mp hv with ⟨u, hu, he⟩
    refine List.any_eq_true.mpr ⟨u, (List.mem_filter.mp hu).1, ?_⟩
    rw [← he]
    simp
  rw [foldl_segUpsert_eq_map _ l hany]
  calc l.map (fun t => ((l.filter (segMatches { qmosaicId := some m })).map
        (fun s : Segment => { s with filled := false, fillable := s.isStartSegment })).foldl
      (fun acc v => if acc.id == v.id then v else acc) t)
      = l.map (fun t => t) := by
        refine List.map_congr_left ?_
        intro t ht
        rw [segApply_reset_point hN ht]
        by_cases hmt : (t.mosaicId == m) = true
        · rw [if_pos hmt]
          have hp := hprops t ht (by simpa using hmt)
          exact seg_reset_self hp.1 hp.2
        · rw [if_neg hmt]
    _ = l := by simp

theorem mosaic2gif_shape {env : Env} {fuel : Nat} {db : DB} {m a b : Nat} {g : RawImage}
    (h : mosaic2gif env fuel db m a b = .ok (some g)) :
    g.mosaicId = m ∧ g.category = RAW_IMAGE_FILLING_GIF := by
  unfold mosaic2gif at h
  simp only [bind, Except.bind] at h
  split at h
  · exact absurd h (by simp)
  · split at h
    · exact absurd h (by simp)
    · split at h
      · exact absurd h (by simp)
      · simp only [Except.ok.injEq, Option.some.injEq] at h
        rw [← h]
        exact ⟨rfl, rfl⟩

theorem readImagePixels_of_upsert {dbA : DB} {l : List ImagePixels} {mm cat : Nat} {arr : Buffer}
    (h : dbA.pixels = pixUpsertList l ⟨mm, cat, arr⟩) :
    readImagePixels dbA mm cat = .ok ⟨mm, cat, arr⟩ := by
  unfold readImagePixels
  rw [h, find?_pixUpsertList_same]

theorem readImagePixels_upsert_skip {dbA dbB : DB} {mm cat : Nat} {arr : Buffer}
    (h : dbA.pixels = pixUpsertList dbB.pixels ⟨mm, cat, arr⟩)
    {m2 c2 : Nat} (hne : ¬(m2 = mm ∧ c2 = cat)) :
    readImagePixels dbA m2 c2 = readImagePixels dbB m2 c2 := by
  unfold readImagePixels
  rw [h, find?_pixUpsertList_other _ _ _ _ _ _ hne]

theorem mosaic2gif_eq_of_eq {env : Env} {fuel : Nat} {m a b : Nat} {db1 db2 : DB}
    (h1 : db1.pixels = db2.pixels) (h2 : db1.segments = db2.segments)
    {res : Except PyErr (Option RawImage)}
    (h : mosaic2gif env fuel db1 m a b = res) : mosaic2gif env fuel db2 m a b = res := by
  rw [← mosaic2gif_congr env fuel db1 db2 m a b h1 h2]
  exact h

/-- C9: resetMosaic is idempotent.  Given the reads succeed and segment
ids are unique, a successful reset yields a store `d1` on which a second
reset is a no-op returning the very same store and id; moreover in `d1`
every segment of the mosaic has `filled = false` and
`fillable = isStartSegment` (the seed set), and the CURRENT pixel buffer
is the background-dimmed ORIGINAL. -/
theorem c9_reset_idempotent (env : Env) (fuel : Nat) (db : DB) (m : Nat) (d1 : DB) (r : Nat)
    (meta : MosaicMetadata) (orig cur : ImagePixels)
    (hmeta : readMosaicMetadata db m = .ok meta)
    (horig : readImagePixels db m IMAGE_PIXELS_CATEGORY_ORIGINAL = .ok orig)
    (hcur : readImagePixels db m IMAGE_PIXELS_CATEGORY_CURRENT = .ok cur)
    (hN : (db.segments.map Segment.id).Nodup)
    (hre : resetMosaic env fuel db m = (d1, .ok r)) :
    resetMosaic env fuel d1 m = (d1, .ok r) ∧
    r = m ∧
    (∀ s ∈ d1.segments, s.mosaicId = m → s.filled = false ∧ s.fillable = s.isStartSegment) ∧
    readImagePixels d1 m IMAGE_PIXELS_CATEGORY_CURRENT =
      .ok ⟨m, IMAGE_PIXELS_CATEGORY_CURRENT,
           env.dimBrightness meta.mosaicConfig.mosaicBgBrightness orig.pixelArray⟩ := by
  rw [resetMosaic_normal env fuel db m meta orig cur hmeta horig hcur] at hre
  simp only [] at hre
  split at hre
  · exact absurd (congrArg Prod.snd hre) (by simp)
  · exact absurd (congrArg Prod.snd hre) (by simp)
  · rename_i A gif heqG
    injection hre with hd1 hok
    have hr : r = m := by
      injection hok with h5
      exact h5.symm
    subst hr
    have hmid : meta.id = r := readMosaicMetadata_id hmeta
    have hprops := (segReset_props (l := db.segments) r hN).1
    have hids := (segReset_props (l := db.segments) r hN).2
    have hd1segs : d1.segments =
        ((db.segments.filter (segMatches { qmosaicId := some r })).map
          (fun s : Segment => { s with filled := false, fillable := s.isStartSegment })).foldl
          segUpsertList db.segments := (congrArg DB.segments hd1).symm
    have hd1pix : d1.pixels = pixUpsertList db.pixels ⟨r, IMAGE_PIXELS_CATEGORY_CURRENT,
        env.dimBrightness meta.mosaicConfig.mosaicBgBrightness orig.pixelArray⟩ :=
      (congrArg DB.pixels hd1).symm
    have hd1mosF : d1.mosaics = (updateMosaicMetadata db { meta with filled := false }).mosaics :=
      (congrArg DB.mosaics hd1).symm
    have hd1raw : d1.rawImages =
        rawUpsertList (rawUpsertList (rawUpsertList db.rawImages
            ⟨r, RAW_IMAGE_CURRENT_JPEG,
             env.encodeJpeg (env.dimBrightness meta.mosaicConfig.mosaicBgBrightness orig.pixelArray)⟩)
          ⟨r, RAW_IMAGE_CURRENT_SMALL_JPEG,
           env.encodeJpeg (env.thumbnailImg env.cfgThumbSize
             (env.dimBrightness meta.mosaicConfig.mosaicBgBrightness orig.pixelArray))⟩) gif :=
      (congrArg DB.rawImages hd1).symm
    have hP1 : ∀ s ∈ d1.segments, s.mosaicId = r → s.filled = false ∧ s.fillable = s.isStartSegment := by
      intro s hs
      rw [hd1segs] at hs
      exact hprops s hs
    have hNS : (d1.segments.map Segment.id).Nodup := by
      rw [hd1segs, hids]
      exact hN
    have hcurS : readImagePixels d1 r IMAGE_PIXELS_CATEGORY_CURRENT =
        .ok ⟨r, IMAGE_PIXELS_CATEGORY_CURRENT,
             env.dimBrightness meta.mosaicConfig.mosaicBgBrightness orig.pixelArray⟩ :=
      readImagePixels_of_upsert hd1pix
    have horigS : readImagePixels d1 r IMAGE_PIXELS_CATEGORY_ORIGINAL = .ok orig := by
      rw [readImagePixels_upsert_skip hd1pix (fun hc => absurd hc.2 (by decide))]
      exact horig
    have hmetaS : readMosaicMetadata d1 r = .ok { meta with filled := false } := by
      have h0 : readMosaicMetadata d1 r =
          readMosaicMetadata (updateMosaicMetadata db { meta with filled := false }) r := by
        unfold readMosaicMetadata
        rw [hd1mosF]
      rw [h0]
      exact readMosaicMetadata_update_same
        (show ({ meta with filled := false } : MosaicMetadata).id = r from hmid) hmeta
    obtain ⟨hgifm, hgifc⟩ := mosaic2gif_shape heqG
    have hgifS : mosaic2gif env fuel d1 r 5 5 = .ok (some gif) :=
      mosaic2gif_eq_of_eq (congrArg DB.pixels hd1) (congrArg DB.segments hd1) heqG
    have hmosfix : updateMosaicMetadata d1 { meta with filled := false } = d1 :=
      updateMosaicMetadata_stable hd1mosF
    have hsegfix : (((d1.segments.filter (segMatches { qmosaicId := some r })).map
        (fun s : Segment => { s with filled := false, fillable := s.isStartSegment })).foldl
        segUpsertList d1.segments) = d1.segments :=
      segReset_stable r hNS hP1
    have hpixfix : pixUpsertList d1.pixels ⟨r, IMAGE_PIXELS_CATEGORY_CURRENT,
        env.dimBrightness meta.mosaicConfig.mosaicBgBrightness orig.pixelArray⟩ = d1.pixels := by
      rw [hd1pix]
      exact pixUpsertList_idem db.pixels _
    have hneBA : ((⟨r, RAW_IMAGE_CURRENT_SMALL_JPEG,
        env.encodeJpeg (env.thumbnailImg env.cfgThumbSize
          (env.dimBrightness meta.mosaicConfig.mosaicBgBrightness orig.pixelArray))⟩ : RawImage).mosaicId ==
          (⟨r, RAW_IMAGE_CURRENT_JPEG,
            env.encodeJpeg (env.dimBrightness meta.mosaicConfig.mosaicBgBrightness orig.pixelArray)⟩ : RawImage).mosaicId &&
        (⟨r, RAW_IMAGE_CURRENT_SMALL_JPEG,
          env.encodeJpeg (env.thumbnailImg env.cfgThumbSize
            (env.dimBrightness meta.mosaicConfig.mosaicBgBrightness orig.pixelArray))⟩ : RawImage).category ==
          (⟨r, RAW_IMAGE_CURRENT_JPEG,
            env.encodeJpeg (env.dimBrightness meta.mosaicConfig.mosaicBgBrightness orig.pixelArray)⟩ : RawImage).category) = false := by
      simp [RAW_IMAGE_CURRENT_SMALL_JPEG, RAW_IMAGE_CURRENT_JPEG]
    have hneGA : ((gif.mosaicId ==
          (⟨r, RAW_IMAGE_CURRENT_JPEG,
            env.encodeJpeg (env.dimBrightness meta.mosaicConfig.mosaicBgBrightness orig.pixelArray)⟩ : RawImage).mosaicId) &&
        (gif.category ==
          (⟨r, RAW_IMAGE_CURRENT_JPEG,
            env.encodeJpeg (env.dimBrightness meta.mosaicConfig.mosaicBgBrightness orig.pixelArray)⟩ : RawImage).category)) = false := by
      simp [hgifc, RAW_IMAGE_FILLING_GIF, RAW_IMAGE_CURRENT_JPEG]
    have hneGB : ((gif.mosaicId ==
          (⟨r, RAW_IMAGE_CURRENT_SMALL_JPEG,
            env.encodeJpeg (env.thumbnailImg env.cfgThumbSize
              (env.dimBrightness meta.mosaicConfig.mosaicBgBrightness orig.pixelArray))⟩ : RawImage).mosaicId) &&
        (gif.category ==
          (⟨r, RAW_IMAGE_CURRENT_SMALL_JPEG,
            env.encodeJpeg (env.thumbnailImg env.cfgThumbSize
              (env.dimBrightness meta.mosaicConfig.mosaicBgBrightness orig.pixelArray))⟩ : RawImage).category)) = false := by
      simp [hgifc, RAW_IMAGE_FILLING_GIF, RAW_IMAGE_CURRENT_SMALL_JPEG]
    have hestA := rawUpsertList_after db.rawImages
      ⟨r, RAW_IMAGE_CURRENT_JPEG,
       env.encodeJpeg (env.dimBrightness meta.mosaicConfig.mosaicBgBrightness orig.pixelArray)⟩
    have hestA2 := rawUpsertList_preserve hneBA hestA.1 hestA.2
    have hestA3 := rawUpsertList_preserve hneGA hestA2.1 hestA2.2
    have hrawfixA : rawUpsertList d1.rawImages
        ⟨r, RAW_IMAGE_CURRENT_JPEG,
         env.encodeJpeg (env.dimBrightness meta.mosaicConfig.mosaicBgBrightness orig.pixelArray)⟩ =
        d1.rawImages := by
      rw [hd1raw]
      exact rawUpsertList_stable hestA3.1 hestA3.2
    have hestB := rawUpsertList_after (rawUpsertList db.rawImages
        ⟨r, RAW_IMAGE_CURRENT_JPEG,
         env.encodeJpeg (env.dimBrightness meta.mosaicConfig.mosaicBgBrightness orig.pixelArray)⟩)
      ⟨r, RAW_IMAGE_CURRENT_SMALL_JPEG,
       env.encodeJpeg (env.thumbnailImg env.cfgThumbSize
         (env.dimBrightness meta.mosaicConfig.mosaicBgBrightness orig.pixelArray))⟩
    have hestB2 := rawUpsertList_preserve hneGB hestB.1 hestB.2
    have hrawfixB : rawUpsertList d1.rawImages
        ⟨r, RAW_IMAGE_CURRENT_SMALL_JPEG,
         env.encodeJpeg (env.thumbnailImg env.cfgThumbSize
           (env.dimBrightness meta.mosaicConfig.mosaicBgBrightness orig.pixelArray))⟩ =
        d1.rawImages := by
      rw [hd1raw]
      exact rawUpsertList_stable hestB2.1 hestB2.2
    have hestG := rawUpsertList_after (rawUpsertList (rawUpsertList db.rawImages
        ⟨r, RAW_IMAGE_CURRENT_JPEG,
         env.encodeJpeg (env.dimBrightness meta.mosaicConfig.mosaicBgBrightness orig.pixelArray)⟩)
      ⟨r, RAW_IMAGE_CURRENT_SMALL_JPEG,
       env.encodeJpeg (env.thumbnailImg env.cfgThumbSize
         (env.dimBrightness meta.mosaicConfig.mosaicBgBrightness orig.pixelArray))⟩) gif
    have hrawfixG : rawUpsertList d1.rawImages gif = d1.rawImages := by
      rw [hd1raw]
      exact rawUpsertList_stable hestG.1 hestG.2
    refine ⟨?_, rfl, hP1, hcurS⟩
    rw [resetMosaic_normal env fuel d1 r { meta with filled := false } orig _ hmetaS horigS hcurS]
    simp only []
    rw [show ({ ({ meta with filled := false } : MosaicMetadata) with filled := false } :
        MosaicMetadata) = ({ meta with filled := false } : MosaicMetadata) from rfl]
    rw [show (({ meta with filled := false } : MosaicMetadata)).mosaicConfig = meta.mosaicConfig from rfl]
    rw [hmosfix, hsegfix, hpixfix, hrawfixA, hrawfixB]
    have hD2 : ({ mosaics := d1.mosaics, segments := d1.segments, pixels := d1.pixels, rawImages := d1.rawImages, nextUuid := d1.nextUuid } : DB) = d1 := rfl
    rw [hD2]
    rw [hgifS]
    show ({ d1 with rawImages := rawUpsertList d1.rawImages gif }, PyResult.ok r) = (d1, PyResult.ok r)
    rw [hrawfixG]

/-- Witness for C9 at the concrete store `dbC3` (mosaic 1): the reset
succeeds, a second reset returns the identical store and id, and the
reset store's mosaic-1 segments are exactly the seed-flag configuration. -/
theorem c9_reset_idempotent_witness :
    resetMosaic unitEnv 30 dbC3 1 = ((resetMosaic unitEnv 30 dbC3 1).1, .ok 1) ∧
    resetMosaic unitEnv 30 (resetMosaic unitEnv 30 dbC3 1).1 1 =
      ((resetMosaic unitEnv 30 dbC3 1).1, .ok 1) ∧
    (∀ s ∈ ((resetMosaic unitEnv 30 dbC3 1).1).segments,
      s.mosaicId = 1 → s.filled = false ∧ s.fillable = s.isStartSegment) := by
  have H := c9_reset_idempotent unitEnv 30 dbC3 1 (resetMosaic unitEnv 30 dbC3 1).1 1
    metaC4 ⟨1, 0, [[1, 2, 3], [4, 5, 6]]⟩ ⟨1, 1, [[0, 0, 0], [0, 0, 0]]⟩
    rfl rfl rfl (by decide) rfl
  exact ⟨rfl, H.1, H.2.2.1⟩

end PhotoMosaic
